import Mathlib

/-!
Verification of the span-rewriting / replacement-consistency engine and the
template-based synthetic data generator of the Spacy_Claude repository.

Python strings are modelled as `List Char`; Python dicts (insertion ordered,
unique keys) as association lists where insertion appends at the end and
lookup returns the first entry with the given key.  `random.choice` is
modelled by an oracle `Nat → Nat` consulted once per call, the chosen index
being reduced modulo the pool length.  Unbounded `while` loops are modelled
with an explicit fuel parameter.
-/

namespace Spacy

/-- Python strings as lists of characters. -/
abbrev Str := List Char

/-- Python `str.lower()`, applied characterwise. -/
def pyLower (s : Str) : Str := s.map Char.toLower

/-- One decimal digit rendered as a character, as Python `str()` renders it. -/
def digitChar (d : Nat) : Char := Char.ofNat (48 + d)

/-- Decimal digits, least significant first, by a fuelled division loop. -/
def decDigitsAux : Nat → Nat → List Nat
  | 0, _ => []
  | _ + 1, 0 => []
  | fuel + 1, n => n % 10 :: decDigitsAux fuel (n / 10)

/-- Decimal digits of `n`, least significant first (`n` itself is enough fuel). -/
def decDigits (n : Nat) : List Nat := decDigitsAux n n

/-- Python `str(n)` for a natural number `n`. -/
def natToChars (n : Nat) : Str :=
  if n = 0 then ['0'] else ((decDigits n).map digitChar).reverse

theorem decDigitsAux_eq_digits (fuel : Nat) :
    ∀ n : Nat, n ≤ fuel → decDigitsAux fuel n = Nat.digits 10 n := by
  induction fuel with
  | zero =>
    intro n hn
    have h0 : n = 0 := Nat.le_zero.mp hn
    subst h0
    simp [decDigitsAux]
  | succ f ih =>
    intro n hn
    match n with
    | 0 => simp [decDigitsAux]
    | m + 1 =>
      have hlt : (m + 1) / 10 ≤ f := by
        have := Nat.div_lt_self (Nat.succ_pos m) (by norm_num : 1 < 10)
        omega
      rw [show decDigitsAux (f + 1) (m + 1) = (m + 1) % 10 :: decDigitsAux f ((m + 1) / 10)
        from rfl]
      rw [ih _ hlt, Nat.digits_def' (by norm_num : 1 < 10) (Nat.succ_pos m)]

theorem decDigits_eq_digits (n : Nat) : decDigits n = Nat.digits 10 n :=
  decDigitsAux_eq_digits n n (Nat.le_refl n)

theorem digitChar_toNat {d : Nat} (hd : d < 10) : (digitChar d).toNat = 48 + d := by
  unfold digitChar
  interval_cases d <;> decide

/-- `natToChars` has a left inverse, hence distinct counters render distinctly. -/
theorem natToChars_injective : Function.Injective natToChars := by
  have hdec : ∀ n : Nat, (((natToChars n).reverse.map (fun c => c.toNat - 48)) : List Nat)
      = if n = 0 then [0] else Nat.digits 10 n := by
    intro n
    by_cases h0 : n = 0
    · subst h0; decide
    · simp only [natToChars, h0, if_false, List.reverse_reverse, List.map_map,
        decDigits_eq_digits]
      have hmap : ∀ d ∈ Nat.digits 10 n, ((fun c => c.toNat - 48) ∘ digitChar) d = d := by
        intro d hd
        have : d < 10 := Nat.digits_lt_base (by norm_num) hd
        simp [Function.comp, digitChar_toNat this]
      rw [List.map_congr_left hmap, List.map_id']
  intro m n h
  have h2 := congrArg (fun l : Str => Nat.ofDigits 10 (l.reverse.map (fun c => c.toNat - 48))) h
  simp only at h2
  rw [hdec m, hdec n] at h2
  by_cases hm : m = 0 <;> by_cases hn : n = 0
  · rw [hm, hn]
  · rw [if_pos hm, if_neg hn, Nat.ofDigits_digits] at h2
    exact absurd h2.symm (by simpa [hm] using hn)
  · rw [if_neg hm, if_pos hn, Nat.ofDigits_digits] at h2
    exact absurd h2 (by simpa [hn] using hm)
  · rwa [if_neg hm, if_neg hn, Nat.ofDigits_digits, Nat.ofDigits_digits] at h2

/-- Index of the leftmost occurrence of `pat` in `t` (Python `str.find`,
`none` standing for Python's `-1`). -/
def findSub (pat : Str) : Str → Option Nat
  | [] => if pat.isPrefixOf ([] : Str) then some 0 else none
  | c :: tl =>
    if pat.isPrefixOf (c :: tl) then some 0
    else (findSub pat tl).map (· + 1)

/-- Python `pat in t`. -/
def containsSub (pat t : Str) : Bool := (findSub pat t).isSome

/-- Python `t.replace(pat, rep, 1)`: replace the leftmost occurrence only. -/
def replaceFirst (pat rep t : Str) : Str :=
  match findSub pat t with
  | none => t
  | some i => t.take i ++ rep ++ t.drop (i + pat.length)

/-- Python slice index semantics: a negative index counts from the end
(clamped at 0); `take`/`drop` already clamp the upper side. -/
def pyIdx (len : Nat) (i : Int) : Nat :=
  if i < 0 then ((len : Int) + i).toNat else i.toNat

/-- `t[:s] + r + t[e:]` as Python computes it. -/
def pySplice (t : Str) (s e : Int) (r : Str) : Str :=
  t.take (pyIdx t.length s) ++ r ++ t.drop (pyIdx t.length e)

/-! ## The pseudonymizer (pseudonymizer_simple.py) -/

/-- `PseudonymizationConfig` of pseudonymizer_simple.py. -/
structure PseudonymizationConfig where
  mask_persons : Bool := true
  mask_orgs : Bool := true
  mask_locations : Bool := true
  mask_dates : Bool := true
  mask_emails : Bool := true
  mask_phones : Bool := true
  replacement_char : Str := ['X']
  preserve_length : Bool := true
  use_placeholders : Bool := false

/-- The mutable state of a `TextPseudonymizer`: the six per-type counters and
the `correspondences` dict (insertion-ordered association list). -/
structure PsState where
  person_counter : Nat := 1
  org_counter : Nat := 1
  location_counter : Nat := 1
  date_counter : Nat := 1
  email_counter : Nat := 1
  phone_counter : Nat := 1
  correspondences : List (Str × Str) := []

/-- The freshly initialised registry state of `TextPseudonymizer.__init__`. -/
def initState : PsState := {}

/-- Python dict lookup: first (equivalently, unique) entry with the key. -/
def dictGet (k : Str) (m : List (Str × Str)) : Option Str :=
  (m.find? (fun p => p.1 == k)).map (·.2)

/-- The registry key `f"{entity_type}_{original_text.lower()}"`. -/
def mkKey (entity_type original_text : Str) : Str :=
  entity_type ++ '_' :: pyLower original_text

/-- `TextPseudonymizer._generate_consistent_replacement`. -/
def generateConsistentReplacement (st : PsState) (original_text entity_type : Str)
    (config : PseudonymizationConfig) : Str × PsState :=
  let key := mkKey entity_type original_text
  match dictGet key st.correspondences with
  | some r => (r, st)
  | none =>
    let (replacement, st') :=
      if config.use_placeholders then
        ('[' :: entity_type ++ [']'], st)
      else if entity_type = "PERSONNE".data then
        ("PERSONNE_".data ++ natToChars st.person_counter,
          { st with person_counter := st.person_counter + 1 })
      else if entity_type = "ORGANISATION".data then
        ("ORGANISATION_".data ++ natToChars st.org_counter,
          { st with org_counter := st.org_counter + 1 })
      else if entity_type = "LIEU".data then
        ("LIEU_".data ++ natToChars st.location_counter,
          { st with location_counter := st.location_counter + 1 })
      else if entity_type = "DATE".data then
        ("DATE_".data ++ natToChars st.date_counter,
          { st with date_counter := st.date_counter + 1 })
      else if entity_type = "EMAIL".data then
        ("email".data ++ natToChars st.email_counter ++ "@exemple.com".data,
          { st with email_counter := st.email_counter + 1 })
      else if entity_type = "TELEPHONE".data then
        ('0' :: natToChars st.phone_counter ++ ".XX.XX.XX.XX".data,
          { st with phone_counter := st.phone_counter + 1 })
      else if config.preserve_length then
        ((List.replicate original_text.length config.replacement_char).flatten, st)
      else
        ((List.replicate 3 config.replacement_char).flatten, st)
    (replacement, { st' with correspondences := st'.correspondences ++ [(key, replacement)] })

/-- An entity span as reported by the external spaCy detector. -/
structure SpacyEnt where
  label : Str
  start_char : Nat
  end_char : Nat
  text : Str
  deriving DecidableEq

/-- The `entity_mapping` lookup table (`dict.get(label, label)`). -/
def entityMapping (label : Str) : Str :=
  if label = "PERSON".data then "PERSONNE".data
  else if label = "PER".data then "PERSONNE".data
  else if label = "ORG".data then "ORGANISATION".data
  else if label = "GPE".data then "LIEU".data
  else if label = "LOC".data then "LIEU".data
  else if label = "DATE".data then "DATE".data
  else if label = "TIME".data then "DATE".data
  else label

/-- The `should_mask` cascade of `TextPseudonymizer.pseudonymize`. -/
def shouldMask (entity_type : Str) (config : PseudonymizationConfig) : Bool :=
  if entity_type = "PERSONNE".data then config.mask_persons
  else if entity_type = "ORGANISATION".data then config.mask_orgs
  else if entity_type = "LIEU".data then config.mask_locations
  else if entity_type = "DATE".data then config.mask_dates
  else false

/-- One record of the `entities_found` log. -/
structure AppliedEnt where
  original : Str
  replacement : Str
  etype : Str
  position : Str

/-- The named-entity replacement loop of `TextPseudonymizer.pseudonymize`
(lines 144-177), threading the registry state, the text being rewritten, the
running offset and the `entities_found` log. -/
def pseudoEntLoop (config : PseudonymizationConfig) :
    PsState → Str → Int → List AppliedEnt → List SpacyEnt →
      PsState × Str × Int × List AppliedEnt
  | st, text, offset, log, [] => (st, text, offset, log)
  | st, text, offset, log, ent :: rest =>
    let entity_type := entityMapping ent.label
    if shouldMask entity_type config then
      let start_pos : Int := (ent.start_char : Int) + offset
      let end_pos : Int := (ent.end_char : Int) + offset
      let rs := generateConsistentReplacement st ent.text entity_type config
      let text' := pySplice text start_pos end_pos rs.1
      let offset' := offset + (rs.1.length : Int) - (ent.text.length : Int)
      pseudoEntLoop config rs.2 text' offset'
        (log ++ [⟨ent.text, rs.1, entity_type,
          natToChars ent.start_char ++ '-' :: natToChars ent.end_char⟩]) rest
    else
      pseudoEntLoop config st text offset log rest

/-! ### The regex pass (`_pseudonymize_regex_patterns`)

The two compiled patterns
`\b[A-Za-z0-9._%+-]+@[A-Za-z0-9.-]+\.[A-Z|a-z]{2,}\b` and
`(?:\+33|0)[1-9](?:[.\-\s]?\d{2}){4}` are emulated by explicit
backtracking matchers over ASCII word characters, and `re.sub` by a
left-to-right non-overlapping scan over the original text. -/

/-- Python `\w` (ASCII part): letters, digits and underscore. -/
def isWordChar (c : Char) : Bool := c.isAlphanum || c == '_'

/-- Is the character at index `i` a word character (out of range: no)? -/
def wordAt (s : Str) (i : Nat) : Bool :=
  match s.get? i with
  | some c => isWordChar c
  | none => false

/-- Python `\b` at position `i` of `s`. -/
def boundaryAt (s : Str) (i : Nat) : Bool :=
  (decide (i ≠ 0) && wordAt s (i - 1)) != wordAt s i

/-- The character class `[A-Za-z0-9._%+-]` of the email pattern. -/
def localChar (c : Char) : Bool :=
  c.isAlphanum || c == '.' || c == '_' || c == '%' || c == '+' || c == '-'

/-- The character class `[A-Za-z0-9.-]` of the email pattern. -/
def domainChar (c : Char) : Bool := c.isAlphanum || c == '.' || c == '-'

/-- The character class `[A-Z|a-z]` of the email pattern (the `|` is literal). -/
def tldChar (c : Char) : Bool := c.isAlpha || c == '|'

/-- Length of the maximal run of characters satisfying `p` starting at `i`. -/
def runLengthFrom (p : Char → Bool) (s : Str) (i : Nat) : Nat :=
  go (s.drop i)
where
  go : Str → Nat
    | [] => 0
    | c :: cs => if p c then go cs + 1 else 0

/-- Backtracking over the `[A-Z|a-z]{2,}\b` tail: try top-level-domain
lengths `k, k-1, …, 2` and return the end index of the first that is
followed by a word boundary. -/
def tryTldLen (s : Str) (p : Nat) : Nat → Option Nat
  | 0 => none
  | k + 1 =>
    if (decide (2 ≤ k + 1) && boundaryAt s (p + (k + 1))) then some (p + (k + 1))
    else tryTldLen s p k

/-- Backtracking over the `[A-Za-z0-9.-]+\.` part: try domain lengths
`d, d-1, …, 1`, requiring a literal dot after the domain, and then a
matching top-level domain. -/
def tryDomainLen (s : Str) (a : Nat) : Nat → Option Nat
  | 0 => none
  | d + 1 =>
    if s.get? (a + (d + 1)) == some '.' then
      match tryTldLen s (a + (d + 1) + 1) (runLengthFrom tldChar s (a + (d + 1) + 1)) with
      | some e => some e
      | none => tryDomainLen s a d
    else tryDomainLen s a d

/-- Match of the email pattern anchored at index `i`; returns the end index. -/
def matchEmailAt (s : Str) (i : Nat) : Option Nat :=
  if boundaryAt s i then
    let L := runLengthFrom localChar s i
    if L = 0 then none
    else if s.get? (i + L) == some '@' then
      tryDomainLen s (i + L + 1) (runLengthFrom domainChar s (i + L + 1))
    else none
  else none

/-- `[.\-\s]` separator class of the phone pattern. -/
def sepChar (c : Char) : Bool := c == '.' || c == '-' || c.isWhitespace

/-- Two decimal digits at indices `p`, `p+1`. -/
def twoDigitsAt (s : Str) (p : Nat) : Bool :=
  (match s.get? p with | some c => c.isDigit | none => false) &&
  (match s.get? (p + 1) with | some c => c.isDigit | none => false)

/-- The `(?:[.\-\s]?\d{2}){4}` tail of the phone pattern, with the greedy
optional separator tried first and given up on failure of the rest. -/
def phoneGroups (s : Str) : Nat → Nat → Option Nat
  | 0, p => some p
  | g + 1, p =>
    let withSep : Option Nat :=
      match s.get? p with
      | some c =>
        if sepChar c && twoDigitsAt s (p + 1) then phoneGroups s g (p + 3) else none
      | none => none
    match withSep with
    | some e => some e
    | none => if twoDigitsAt s p then phoneGroups s g (p + 2) else none

/-- Match of the phone pattern `(?:\+33|0)[1-9](?:[.\-\s]?\d{2}){4}` anchored
at index `i`; returns the end index. -/
def matchPhoneAt (s : Str) (i : Nat) : Option Nat :=
  let pfx : Option Nat :=
    if s.get? i == some '+' && s.get? (i + 1) == some '3' && s.get? (i + 2) == some '3'
    then some (i + 3)
    else if s.get? i == some '0' then some (i + 1)
    else none
  match pfx with
  | none => none
  | some p =>
    match s.get? p with
    | some c => if '1' ≤ c && c ≤ '9' then phoneGroups s 4 (p + 1) else none
    | none => none

/-- The scan of `re.sub`: try to match at each index left to right; on a
match, record `(start, end)` and continue scanning at `end`. -/
def scanMatches (matchAt : Str → Nat → Option Nat) (s : Str) : Nat → Nat → List (Nat × Nat)
  | 0, _ => []
  | fuel + 1, i =>
    if i < s.length then
      match matchAt s i with
      | some e => (i, e) :: scanMatches matchAt s fuel e
      | none => scanMatches matchAt s fuel (i + 1)
    else []

/-- Rebuild the text of `re.sub`, resolving each match through the registry
in scan order; also returns the ghost log of (matched text, replacement)
pairs used by the statements below. -/
def subMatches (config : PseudonymizationConfig) (etype : Str) (s : Str) :
    PsState → List (Nat × Nat) → Nat → Str × List (Str × Str) × PsState
  | st, [], c => (s.drop c, [], st)
  | st, (i, e) :: rest, c =>
    let mtext := (s.drop i).take (e - i)
    let rs := generateConsistentReplacement st mtext etype config
    let tail := subMatches config etype s rs.2 rest e
    ((s.drop c).take (i - c) ++ rs.1 ++ tail.1, (mtext, rs.1) :: tail.2.1, tail.2.2)

/-- `pattern.sub(repl, text)` with `repl` resolving through the registry. -/
def reSub (matchAt : Str → Nat → Option Nat) (etype : Str) (st : PsState)
    (config : PseudonymizationConfig) (text : Str) : Str × List (Str × Str) × PsState :=
  subMatches config etype text st (scanMatches matchAt text (text.length + 1) 0) 0

/-- `TextPseudonymizer._pseudonymize_regex_patterns`. -/
def pseudonymizeRegexPatterns (st : PsState) (text : Str)
    (config : PseudonymizationConfig) : Str × PsState :=
  let r1 :=
    if config.mask_emails then
      let t := reSub matchEmailAt "EMAIL".data st config text
      (t.1, t.2.2)
    else (text, st)
  if config.mask_phones then
    let t := reSub matchPhoneAt "TELEPHONE".data r1.2 config r1.1
    (t.1, t.2.2)
  else r1

/-- The result dict of `TextPseudonymizer.pseudonymize`. -/
structure PseudoResult where
  original_text : Str
  pseudonymized_text : Str
  entities : List AppliedEnt
  correspondences : List (Str × Str)

/-- `TextPseudonymizer.pseudonymize`: the named-entity loop (on the spans
supplied by the external detector) followed by the regex pass. -/
def pseudonymize (st : PsState) (text : Str) (ents : List SpacyEnt)
    (config : PseudonymizationConfig) : PsState × PseudoResult :=
  let r := pseudoEntLoop config st text 0 [] ents
  let p := pseudonymizeRegexPatterns r.1 r.2.1 config
  (p.2, ⟨text, p.1, r.2.2.2, p.2.correspondences⟩)

/-! ## The synthetic data generator
(`DataGenerator.generate_training_data`, identical in
spacy_finetuning_fixed.py and spacy_finetuning_module.py) -/

/-- The `{PERSON}` placeholder token. -/
def tokPERSON : Str := "{PERSON}".data

/-- The `{ORG}` placeholder token. -/
def tokORG : Str := "{ORG}".data

/-- The `{LOC}` placeholder token. -/
def tokLOC : Str := "{LOC}".data

/-- A generated annotation `(start, end, label)`. -/
abbrev GenEnt := Nat × Nat × Str

/-- The name pools and templates held by a `DataGenerator`. -/
structure DataGen where
  person_names : List Str
  org_names : List Str
  location_names : List Str
  context_templates : List Str

/-- `random.choice(pool)`: the oracle supplies the chosen index, reduced
modulo the pool length; on an empty pool Python raises, modelled by `[]`
(the loops below never choose from an empty pool). -/
def randomChoice (oracle : Nat → Nat) (idx : Nat) (pool : List Str) : Str :=
  pool.getD (oracle idx % pool.length) []

/-- One per-kind substitution loop
(`while tok in current_text and pool: …`), with explicit fuel.  Each
iteration draws a value, records the span at the position of the leftmost
occurrence of the token in the current string, and replaces only that
occurrence. -/
def substPass (tok kind : Str) (pool : List Str) (oracle : Nat → Nat) :
    Nat → Nat → Str → List GenEnt → Str × List GenEnt × Nat
  | 0, idx, t, es => (t, es, idx)
  | fuel + 1, idx, t, es =>
    if containsSub tok t && !pool.isEmpty then
      let v := randomChoice oracle idx pool
      match findSub tok t with
      | some pos =>
        substPass tok kind pool oracle fuel (idx + 1)
          (t.take pos ++ v ++ t.drop (pos + tok.length))
          (es ++ [(pos, pos + v.length, kind)])
      | none => (t, es, idx + 1)
    else (t, es, idx)

/-- One draw of `generate_training_data`: choose a template, run the three
kind passes in the fixed order PERSON, ORG, LOC, then validate. -/
def generateOne (gen : DataGen) (oracle : Nat → Nat) (fuel idx : Nat) :
    Option (Str × List GenEnt) × Nat :=
  let template := randomChoice oracle idx gen.context_templates
  let r1 := substPass tokPERSON "PERSON".data gen.person_names oracle fuel (idx + 1) template []
  let r2 := substPass tokORG "ORG".data gen.org_names oracle fuel r1.2.2 r1.1 r1.2.1
  let r3 := substPass tokLOC "LOC".data gen.location_names oracle fuel r2.2.2 r2.1 r2.2.1
  if !(containsSub tokPERSON r3.1 || containsSub tokORG r3.1 || containsSub tokLOC r3.1) then
    if !r3.2.1.isEmpty then
      (some (r3.1, List.insertionSort (fun a b : GenEnt => a.1 ≤ b.1) r3.2.1), r3.2.2)
    else (none, r3.2.2)
  else (none, r3.2.2)

/-- The state of a draw after its PERSON pass: rewritten text, spans
collected so far, next oracle index. -/
def passPERSON (gen : DataGen) (oracle : Nat → Nat) (fuel idx : Nat) :
    Str × List GenEnt × Nat :=
  substPass tokPERSON "PERSON".data gen.person_names oracle fuel (idx + 1)
    (randomChoice oracle idx gen.context_templates) []

/-- The state of a draw after its ORG pass. -/
def passORG (gen : DataGen) (oracle : Nat → Nat) (fuel idx : Nat) :
    Str × List GenEnt × Nat :=
  substPass tokORG "ORG".data gen.org_names oracle fuel
    (passPERSON gen oracle fuel idx).2.2 (passPERSON gen oracle fuel idx).1
    (passPERSON gen oracle fuel idx).2.1

/-- The state of a draw after its LOC pass. -/
def passLOC (gen : DataGen) (oracle : Nat → Nat) (fuel idx : Nat) :
    Str × List GenEnt × Nat :=
  substPass tokLOC "LOC".data gen.location_names oracle fuel
    (passORG gen oracle fuel idx).2.2 (passORG gen oracle fuel idx).1
    (passORG gen oracle fuel idx).2.1

/-- `generateOne` is validation applied to the three chained passes. -/
theorem generateOne_eq_passes (gen : DataGen) (oracle : Nat → Nat) (fuel idx : Nat) :
    generateOne gen oracle fuel idx =
      (if !(containsSub tokPERSON (passLOC gen oracle fuel idx).1
          || containsSub tokORG (passLOC gen oracle fuel idx).1
          || containsSub tokLOC (passLOC gen oracle fuel idx).1) then
        if !(passLOC gen oracle fuel idx).2.1.isEmpty then
          (some ((passLOC gen oracle fuel idx).1,
            List.insertionSort (fun a b : GenEnt => a.1 ≤ b.1)
              (passLOC gen oracle fuel idx).2.1), (passLOC gen oracle fuel idx).2.2)
        else (none, (passLOC gen oracle fuel idx).2.2)
      else (none, (passLOC gen oracle fuel idx).2.2)) := rfl

/-- The `for _ in range(num_samples)` loop, appending accepted draws. -/
def genLoop (gen : DataGen) (oracle : Nat → Nat) (fuel : Nat) :
    Nat → Nat → List (Str × List GenEnt) → List (Str × List GenEnt)
  | 0, _, acc => acc
  | n + 1, idx, acc =>
    let r := generateOne gen oracle fuel idx
    match r.1 with
    | some ex => genLoop gen oracle fuel n r.2 (acc ++ [ex])
    | none => genLoop gen oracle fuel n r.2 acc

/-- `DataGenerator.generate_training_data` (raises on an empty template
list, modelled by `Except.error`). -/
def generateTrainingData (gen : DataGen) (num_samples : Nat) (oracle : Nat → Nat)
    (fuel : Nat) : Except Str (List (Str × List GenEnt)) :=
  if gen.context_templates.isEmpty then
    Except.error "Aucun template de contexte charge".data
  else
    Except.ok (genLoop gen oracle fuel num_samples 0 [])

/-! ## Helper lemmas about the generator -/

theorem substPass_append (tok kind : Str) (pool : List Str) (oracle : Nat → Nat) :
    ∀ fuel idx t es, substPass tok kind pool oracle fuel idx t es =
      ((substPass tok kind pool oracle fuel idx t []).1,
       es ++ (substPass tok kind pool oracle fuel idx t []).2.1,
       (substPass tok kind pool oracle fuel idx t []).2.2) := by
  intro fuel
  induction fuel with
  | zero => intro idx t es; simp [substPass]
  | succ f ih =>
    intro idx t es
    simp only [substPass]
    by_cases hc : (containsSub tok t && !pool.isEmpty) = true
    · rw [if_pos hc, if_pos hc]
      cases hf : findSub tok t with
      | none => simp
      | some pos =>
        simp only
        rw [ih (idx + 1) _ (es ++ [(pos, pos + (randomChoice oracle idx pool).length, kind)]),
          ih (idx + 1) _ ([] ++ [(pos, pos + (randomChoice oracle idx pool).length, kind)])]
        simp
    · rw [if_neg hc, if_neg hc]
      simp

theorem randomChoice_small {pool : List Str} (h : pool.length ≤ 1)
    (o1 o2 : Nat → Nat) (idx1 idx2 : Nat) :
    randomChoice o1 idx1 pool = randomChoice o2 idx2 pool := by
  match pool with
  | [] => rfl
  | [a] => simp [randomChoice, Nat.mod_one]
  | a :: b :: u => simp at h

theorem substPass_oracle (tok kind : Str) {pool : List Str} (h : pool.length ≤ 1)
    (o1 o2 : Nat → Nat) :
    ∀ fuel idx t es, substPass tok kind pool o1 fuel idx t es =
      substPass tok kind pool o2 fuel idx t es := by
  intro fuel
  induction fuel with
  | zero => intro idx t es; rfl
  | succ f ih =>
    intro idx t es
    simp only [substPass]
    rw [randomChoice_small h o1 o2 idx idx]
    by_cases hc : (containsSub tok t && !pool.isEmpty) = true
    · rw [if_pos hc, if_pos hc]
      cases hf : findSub tok t with
      | none => rfl
      | some pos => simp only; rw [ih]
    · rw [if_neg hc, if_neg hc]

theorem generateOne_oracle {gen : DataGen}
    (h1 : gen.person_names.length ≤ 1) (h2 : gen.org_names.length ≤ 1)
    (h3 : gen.location_names.length ≤ 1) (h4 : gen.context_templates.length ≤ 1)
    (o1 o2 : Nat → Nat) (fuel idx : Nat) :
    generateOne gen o1 fuel idx = generateOne gen o2 fuel idx := by
  simp only [generateOne]
  rw [randomChoice_small h4 o1 o2 idx idx,
    substPass_oracle _ _ h1 o1 o2,
    substPass_oracle _ _ h2 o1 o2,
    substPass_oracle _ _ h3 o1 o2]

theorem genLoop_oracle {gen : DataGen}
    (h1 : gen.person_names.length ≤ 1) (h2 : gen.org_names.length ≤ 1)
    (h3 : gen.location_names.length ≤ 1) (h4 : gen.context_templates.length ≤ 1)
    (o1 o2 : Nat → Nat) (fuel : Nat) :
    ∀ n idx acc, genLoop gen o1 fuel n idx acc = genLoop gen o2 fuel n idx acc := by
  intro n
  induction n with
  | zero => intro idx acc; rfl
  | succ m ih =>
    intro idx acc
    simp only [genLoop]
    rw [generateOne_oracle h1 h2 h3 h4 o1 o2 fuel idx]
    cases (generateOne gen o2 fuel idx).1 with
    | some ex => simp only; rw [ih]
    | none => simp only; rw [ih]

theorem generateTrainingData_oracle {gen : DataGen}
    (h1 : gen.person_names.length ≤ 1) (h2 : gen.org_names.length ≤ 1)
    (h3 : gen.location_names.length ≤ 1) (h4 : gen.context_templates.length ≤ 1)
    (o1 o2 : Nat → Nat) (n fuel : Nat) :
    generateTrainingData gen n o1 fuel = generateTrainingData gen n o2 fuel := by
  simp only [generateTrainingData]
  rw [genLoop_oracle h1 h2 h3 h4 o1 o2]

/-- A while loop whose guard is already false returns its arguments
unchanged, whatever the fuel. -/
theorem substPass_done (tok kind : Str) (pool : List Str) (oracle : Nat → Nat)
    {t : Str} (h : (containsSub tok t && !pool.isEmpty) = false) :
    ∀ fuel idx es, substPass tok kind pool oracle fuel idx t es = (t, es, idx) := by
  intro fuel idx es
  cases fuel with
  | zero => rfl
  | succ f => simp only [substPass]; rw [if_neg (by rw [h]; exact Bool.false_ne_true)]

/-- C5: Template substitution runs in the fixed kind order PERSON, then ORG,
then LOC; within each kind the pass repeatedly substitutes the first
remaining occurrence of the kind's token, recording spans in the current
string's coordinates, and spans recorded by earlier kind passes are passed
through later kind passes unchanged: the collected list is the
concatenation of the three passes' own span lists, each pass started from
an empty accumulator. -/
theorem claim5_fixed_kind_order (gen : DataGen) (oracle : Nat → Nat) (fuel idx : Nat) :
    generateOne gen oracle fuel idx =
      (let template := randomChoice oracle idx gen.context_templates
       let r1 := substPass tokPERSON "PERSON".data gen.person_names oracle fuel (idx + 1)
         template []
       let r2 := substPass tokORG "ORG".data gen.org_names oracle fuel r1.2.2 r1.1 []
       let r3 := substPass tokLOC "LOC".data gen.location_names oracle fuel r2.2.2 r2.1 []
       if !(containsSub tokPERSON r3.1 || containsSub tokORG r3.1 || containsSub tokLOC r3.1)
       then
         if !(r1.2.1 ++ r2.2.1 ++ r3.2.1).isEmpty then
           (some (r3.1, List.insertionSort (fun a b : GenEnt => a.1 ≤ b.1)
             (r1.2.1 ++ r2.2.1 ++ r3.2.1)), r3.2.2)
         else (none, r3.2.2)
       else (none, r3.2.2)) := by
  simp only [generateOne]
  rw [substPass_append tokORG "ORG".data gen.org_names oracle fuel]
  rw [substPass_append tokLOC "LOC".data gen.location_names oracle fuel]

/-- The generator input of the synthesizer-coverage example of the spec. -/
def genCoverage : DataGen :=
  ⟨["Jean Dupont".data], ["Microsoft".data], [],
   ["{PERSON} travaille chez {ORG} depuis janvier.".data]⟩

theorem genCoverage_person (f : Nat) :
    substPass tokPERSON "PERSON".data genCoverage.person_names (fun _ => 0) (f + 1) 1
      "{PERSON} travaille chez {ORG} depuis janvier.".data [] =
    ("Jean Dupont travaille chez {ORG} depuis janvier.".data,
     [(0, 11, "PERSON".data)], 2) := by
  rw [show substPass tokPERSON "PERSON".data genCoverage.person_names (fun _ => 0) (f + 1) 1
        "{PERSON} travaille chez {ORG} depuis janvier.".data []
      = substPass tokPERSON "PERSON".data genCoverage.person_names (fun _ => 0) f 2
        "Jean Dupont travaille chez {ORG} depuis janvier.".data [(0, 11, "PERSON".data)]
      from rfl]
  exact substPass_done _ _ _ _ (by decide) f 2 _

theorem genCoverage_org (f : Nat) :
    substPass tokORG "ORG".data genCoverage.org_names (fun _ => 0) (f + 1) 2
      "Jean Dupont travaille chez {ORG} depuis janvier.".data [(0, 11, "PERSON".data)] =
    ("Jean Dupont travaille chez Microsoft depuis janvier.".data,
     [(0, 11, "PERSON".data), (27, 36, "ORG".data)], 3) := by
  rw [show substPass tokORG "ORG".data genCoverage.org_names (fun _ => 0) (f + 1) 2
        "Jean Dupont travaille chez {ORG} depuis janvier.".data [(0, 11, "PERSON".data)]
      = substPass tokORG "ORG".data genCoverage.org_names (fun _ => 0) f 3
        "Jean Dupont travaille chez Microsoft depuis janvier.".data
        [(0, 11, "PERSON".data), (27, 36, "ORG".data)]
      from rfl]
  exact substPass_done _ _ _ _ (by decide) f 3 _

/-- C6 (amended): with the single template
`"{PERSON} travaille chez {ORG} depuis janvier."`, person pool
`["Jean Dupont"]` and organisation pool `["Microsoft"]`, generating one
example yields `"Jean Dupont travaille chez Microsoft depuis janvier."`
with the span list `[(0,11,"PERSON"), (27,36,"ORG")]` sorted ascending by
start (the spec's `(0,12)` is off by one: `"Jean Dupont"` has 11
characters). -/
theorem claim6_synthesizer_coverage (oracle : Nat → Nat) (fuel : Nat) (hf : 1 ≤ fuel) :
    generateTrainingData genCoverage 1 oracle fuel =
      Except.ok [("Jean Dupont travaille chez Microsoft depuis janvier.".data,
        [(0, 11, "PERSON".data), (27, 36, "ORG".data)])] := by
  obtain ⟨f, rfl⟩ : ∃ f, fuel = f + 1 := ⟨fuel - 1, by omega⟩
  rw [generateTrainingData_oracle (by decide) (by decide) (by decide) (by decide)
    oracle (fun _ => 0)]
  have hone : generateOne genCoverage (fun _ => 0) (f + 1) 0 =
      (some ("Jean Dupont travaille chez Microsoft depuis janvier.".data,
        [(0, 11, "PERSON".data), (27, 36, "ORG".data)]), 3) := by
    simp only [generateOne]
    rw [show randomChoice (fun _ => 0) 0 genCoverage.context_templates =
      "{PERSON} travaille chez {ORG} depuis janvier.".data from rfl]
    rw [genCoverage_person f]
    simp only
    rw [genCoverage_org f]
    simp only
    rw [substPass_done tokLOC "LOC".data genCoverage.location_names (fun _ => 0)
      (by decide) (f + 1) 3]
    decide
  simp only [generateTrainingData]
  rw [if_neg (by decide)]
  simp only [genLoop]
  rw [hone]
  rfl

/-- A successful `find` designates an actual occurrence, inside bounds. -/
theorem findSub_some_occurs (pat : Str) :
    ∀ t i, findSub pat t = some i →
      (t.drop i).take pat.length = pat ∧ i + pat.length ≤ t.length := by
  intro t
  induction t with
  | nil =>
    intro i h
    simp only [findSub] at h
    by_cases hp : pat.isPrefixOf ([] : Str) = true
    · rw [if_pos hp] at h
      have : pat <+: ([] : Str) := List.isPrefixOf_iff_prefix.mp hp
      have hpat : pat = [] := List.prefix_nil.mp this
      cases h
      simp [hpat]
    · rw [if_neg hp] at h
      cases h
  | cons c tl ih =>
    intro i h
    simp only [findSub] at h
    by_cases hp : pat.isPrefixOf (c :: tl) = true
    · rw [if_pos hp] at h
      cases h
      have hpre : pat <+: (c :: tl) := List.isPrefixOf_iff_prefix.mp hp
      refine ⟨?_, by simpa using hpre.length_le⟩
      simpa using (List.prefix_iff_eq_take.mp hpre).symm
    · rw [if_neg hp] at h
      cases hj : findSub pat tl with
      | none => rw [hj] at h; cases h
      | some j =>
        rw [hj] at h
        simp only [Option.map_some'] at h
        cases h
        obtain ⟨h1, h2⟩ := ih j hj
        exact ⟨by simpa using h1, by simp only [List.length_cons]; omega⟩

/-- Conversely, any occurrence makes `containsSub` true. -/
theorem containsSub_intro (pat : Str) :
    ∀ t i, (t.drop i).take pat.length = pat → i + pat.length ≤ t.length →
      containsSub pat t = true := by
  intro t
  induction t with
  | nil =>
    intro i h1 h2
    have hlen : pat.length = 0 := by
      simp only [List.length_nil] at h2
      omega
    have hpat : pat = [] := List.eq_nil_of_length_eq_zero hlen
    simp [containsSub, findSub, hpat, List.isPrefixOf_iff_prefix]
  | cons c tl ih =>
    intro i h1 h2
    match i with
    | 0 =>
      have hpre : pat <+: (c :: tl) := by
        rw [List.prefix_iff_eq_take]
        simpa using h1.symm
      simp [containsSub, findSub, List.isPrefixOf_iff_prefix, hpre]
    | j + 1 =>
      have hc : containsSub pat tl = true := by
        refine ih j (by simpa using h1) ?_
        simp only [List.length_cons] at h2
        omega
      simp only [containsSub, findSub]
      by_cases hp : pat.isPrefixOf (c :: tl) = true
      · simp [hp]
      · simp only [containsSub] at hc
        rw [if_neg hp]
        cases hj : findSub pat tl with
        | none => rw [hj] at hc; cases hc
        | some j' => simp

/-- C6 counterexample: the generator's actual output on the spec's
synthesizer-coverage input carries the PERSON span `(0,11)`, not the
`(0,12)` the claim states. -/
theorem claim6_counterexample :
    generateTrainingData genCoverage 1 (fun _ => 0) 100 =
      Except.ok [("Jean Dupont travaille chez Microsoft depuis janvier.".data,
        [(0, 11, "PERSON".data), (27, 36, "ORG".data)])] ∧
    [((0 : Nat), (11 : Nat), "PERSON".data), (27, 36, "ORG".data)] ≠
      [((0 : Nat), (12 : Nat), "PERSON".data), (27, 36, "ORG".data)] :=
  ⟨rfl, by decide⟩

/-! ## Termination of the substitution loops -/

/-- The precondition of the termination claim: a pool value contains none of
the three placeholder tokens. -/
def noTokenIn (v : Str) : Bool :=
  !(containsSub tokPERSON v || containsSub tokORG v || containsSub tokLOC v)

/-- A pool and a start string on which the PERSON substitution loop cycles:
the pool satisfies the no-token precondition, yet two iterations lead back
to the very same string. -/
def cycPool : List Str := ["\x7bPER\x7bP".data, "SON\x7dERSON\x7d".data]

/-- The alternating choice sequence driving the cycle. -/
def cycOracle : Nat → Nat := fun i => i % 2

/-- The template exhibiting the cycle. -/
def cycText : Str := "ERSON\x7d\x7bPERSON\x7dERSON\x7d".data

/-- C10 counterexample: both pool values satisfy the claim's precondition,
yet after two iterations of the PERSON loop the current string is again the
start string, with the placeholder still present — the loop revisits its
state, so its occurrence count does not strictly decrease and the `while`
loop of `generate_training_data` does not terminate on this choice
sequence. -/
theorem claim10_counterexample :
    cycPool.all noTokenIn = true ∧
    (substPass tokPERSON "PERSON".data cycPool cycOracle 2 0 cycText []).1 = cycText ∧
    containsSub tokPERSON cycText = true :=
  ⟨rfl, rfl, rfl⟩

/-- When every pool value is strictly shorter than the token, each loop
iteration strictly shrinks the string, so with fuel at least the string
length the loop reaches its exit condition (guard false) and the final
string is no longer than the start string. -/
theorem substPass_term (tok kind : Str) (pool : List Str) (oracle : Nat → Nat)
    (hv : ∀ v ∈ pool, v.length < tok.length) :
    ∀ fuel (t : Str) idx es, t.length ≤ fuel →
      (containsSub tok (substPass tok kind pool oracle fuel idx t es).1
          && !pool.isEmpty) = false ∧
      (substPass tok kind pool oracle fuel idx t es).1.length ≤ t.length := by
  intro fuel
  induction fuel with
  | zero =>
    intro t idx es ht
    have ht0 : t = [] := List.eq_nil_of_length_eq_zero (Nat.le_zero.mp ht)
    subst ht0
    refine ⟨?_, Nat.le_refl _⟩
    match pool with
    | [] => simp [substPass]
    | v :: ps =>
      have htok : tok.length ≠ 0 := by
        have := hv v (List.mem_cons_self v ps)
        omega
      have hnone : containsSub tok ([] : Str) = false := by
        simp only [containsSub, findSub]
        rw [if_neg ?_]
        · rfl
        · intro hpre
          have hp2 := (List.isPrefixOf_iff_prefix.mp hpre).length_le
          simp at hp2
          rw [hp2] at htok
          simp at htok
      simp [substPass, hnone]
  | succ f ih =>
    intro t idx es ht
    by_cases hc : (containsSub tok t && !pool.isEmpty) = true
    · have hcontains : containsSub tok t = true := by
        cases hcs : containsSub tok t
        · rw [hcs] at hc; simp at hc
        · rfl
      have hpool : pool ≠ [] := by
        intro h0
        rw [h0] at hc
        simp at hc
      obtain ⟨pos, hfs⟩ : ∃ pos, findSub tok t = some pos := by
        cases hfs : findSub tok t with
        | none => simp [containsSub, hfs] at hcontains
        | some p => exact ⟨p, rfl⟩
      have hstep : substPass tok kind pool oracle (f + 1) idx t es =
          substPass tok kind pool oracle f (idx + 1)
            (t.take pos ++ randomChoice oracle idx pool ++ t.drop (pos + tok.length))
            (es ++ [(pos, pos + (randomChoice oracle idx pool).length, kind)]) := by
        simp only [substPass]
        rw [if_pos hc, hfs]
      obtain ⟨-, hbound⟩ := findSub_some_occurs tok t pos hfs
      have hvmem : randomChoice oracle idx pool ∈ pool := by
        have hlt : oracle idx % pool.length < pool.length :=
          Nat.mod_lt _ (List.length_pos.mpr hpool)
        rw [randomChoice, List.getD_eq_getElem _ _ hlt]
        exact List.getElem_mem hlt
      have hvlen := hv _ hvmem
      have hlen : (t.take pos ++ randomChoice oracle idx pool ++
          t.drop (pos + tok.length)).length < t.length := by
        simp only [List.length_append, List.length_take, List.length_drop]
        omega
      obtain ⟨ih1, ih2⟩ := ih
        (t.take pos ++ randomChoice oracle idx pool ++ t.drop (pos + tok.length))
        (idx + 1) (es ++ [(pos, pos + (randomChoice oracle idx pool).length, kind)])
        (by omega)
      rw [hstep]
      exact ⟨ih1, Nat.le_trans ih2 (Nat.le_of_lt hlen)⟩
    · have hb : (containsSub tok t && !pool.isEmpty) = false :=
        Bool.not_eq_true _ |>.mp hc
      rw [substPass_done tok kind pool oracle hb (f + 1) idx es]
      exact ⟨hb, Nat.le_refl _⟩

/-- C10 (amended): with the stronger precondition that every pool value is
strictly shorter than its placeholder token, every substitution loop of a
draw of `generate_training_data` terminates — given fuel at least the
chosen template's length, each of the three kind passes ends with its loop
guard false (the fuel bound is never what stops it).  Under the claim's own
precondition (pool values merely containing no token) the loop can revisit
the same string forever and the occurrence count need not strictly
decrease. -/
theorem claim10_termination_short_values (gen : DataGen) (oracle : Nat → Nat)
    (h1 : ∀ v ∈ gen.person_names, v.length < tokPERSON.length)
    (h2 : ∀ v ∈ gen.org_names, v.length < tokORG.length)
    (h3 : ∀ v ∈ gen.location_names, v.length < tokLOC.length)
    (fuel idx : Nat)
    (hfuel : (randomChoice oracle idx gen.context_templates).length ≤ fuel) :
    (containsSub tokPERSON (passPERSON gen oracle fuel idx).1
      && !gen.person_names.isEmpty) = false ∧
    (containsSub tokORG (passORG gen oracle fuel idx).1
      && !gen.org_names.isEmpty) = false ∧
    (containsSub tokLOC (passLOC gen oracle fuel idx).1
      && !gen.location_names.isEmpty) = false := by
  obtain ⟨g1, l1⟩ := substPass_term tokPERSON "PERSON".data gen.person_names oracle h1
    fuel (randomChoice oracle idx gen.context_templates) (idx + 1) [] hfuel
  have l1' : (passPERSON gen oracle fuel idx).1.length ≤
      (randomChoice oracle idx gen.context_templates).length := l1
  obtain ⟨g2, l2⟩ := substPass_term tokORG "ORG".data gen.org_names oracle h2
    fuel (passPERSON gen oracle fuel idx).1 (passPERSON gen oracle fuel idx).2.2
    (passPERSON gen oracle fuel idx).2.1 (by omega)
  have l2' : (passORG gen oracle fuel idx).1.length ≤
      (passPERSON gen oracle fuel idx).1.length := l2
  obtain ⟨g3, -⟩ := substPass_term tokLOC "LOC".data gen.location_names oracle h3
    fuel (passORG gen oracle fuel idx).1 (passORG gen oracle fuel idx).2.2
    (passORG gen oracle fuel idx).2.1 (by omega)
  exact ⟨g1, g2, g3⟩

/-! ## Occurrence preservation and validation (generator) -/

theorem occursAt_getElem {pat t : Str} {i : Nat}
    (h : (t.drop i).take pat.length = pat) {k : Nat} (hk : k < pat.length) :
    t[i + k]? = pat[k]? := by
  rw [← h, List.getElem?_take_of_lt hk, List.getElem?_drop]

/-- Two occurrences of brace-delimited tokens (each containing `{` only as
its first character, and differing in their second character) cannot
overlap. -/
theorem brace_tokens_disjoint {pat1 pat2 t : Str} {i p : Nat}
    (h1 : (t.drop i).take pat1.length = pat1) (hb1 : i + pat1.length ≤ t.length)
    (h2 : (t.drop p).take pat2.length = pat2) (hb2 : p + pat2.length ≤ t.length)
    (hlen1 : 2 ≤ pat1.length) (hlen2 : 2 ≤ pat2.length)
    (hhead1 : pat1[0]? = some '{') (hhead2 : pat2[0]? = some '{')
    (honly1 : ∀ k, k < pat1.length → 0 < k → pat1[k]? ≠ some '{')
    (honly2 : ∀ k, k < pat2.length → 0 < k → pat2[k]? ≠ some '{')
    (hsec : pat1[1]? ≠ pat2[1]?) :
    i + pat1.length ≤ p ∨ p + pat2.length ≤ i := by
  by_cases hcase : i + pat1.length ≤ p ∨ p + pat2.length ≤ i
  · exact hcase
  · exfalso
    push_neg at hcase
    obtain ⟨hov1, hov2⟩ := hcase
    rcases le_or_lt i p with hip | hpi
    · have hk : p - i < pat1.length := by omega
      have hchar : pat1[p - i]? = some '{' := by
        have e1 := occursAt_getElem h1 hk
        have e2 := occursAt_getElem h2 (by omega : 0 < pat2.length)
        rw [Nat.add_zero] at e2
        rw [show i + (p - i) = p by omega] at e1
        rw [← e1, e2, hhead2]
      rcases Nat.eq_zero_or_pos (p - i) with hz | hpos
      · have hip' : i = p := by omega
        subst hip'
        have e1 := occursAt_getElem h1 (by omega : 1 < pat1.length)
        have e2 := occursAt_getElem h2 (by omega : 1 < pat2.length)
        rw [← e1, ← e2] at hsec
        exact hsec rfl
      · exact honly1 _ hk hpos hchar
    · have hm : i - p < pat2.length := by omega
      have hchar : pat2[i - p]? = some '{' := by
        have e1 := occursAt_getElem h1 (by omega : 0 < pat1.length)
        have e2 := occursAt_getElem h2 hm
        rw [Nat.add_zero] at e1
        rw [show p + (i - p) = i by omega] at e2
        rw [← e2, e1, hhead1]
      exact honly2 _ hm (by omega) hchar

theorem occurs_append_left {pat A : Str} {i : Nat} (B : Str)
    (h : (A.drop i).take pat.length = pat) (hb : i + pat.length ≤ A.length) :
    ((A ++ B).drop i).take pat.length = pat ∧ i + pat.length ≤ (A ++ B).length := by
  have hdrop : (A ++ B).drop i = A.drop i ++ B := by
    rw [List.drop_append_eq_append_drop, Nat.sub_eq_zero_of_le (by omega), List.drop_zero]
  constructor
  · rw [hdrop, List.take_append_eq_append_take, h,
      Nat.sub_eq_zero_of_le (by simp [List.length_take]; omega), List.take_zero,
      List.append_nil]
  · simp only [List.length_append]
    omega

theorem occurs_append_right {pat B : Str} {j : Nat} (A : Str)
    (h : (B.drop j).take pat.length = pat) (hb : j + pat.length ≤ B.length) :
    ((A ++ B).drop (A.length + j)).take pat.length = pat ∧
      A.length + j + pat.length ≤ (A ++ B).length := by
  have hdrop : (A ++ B).drop (A.length + j) = B.drop j := by
    rw [List.drop_append_eq_append_drop, List.drop_of_length_le (by omega)]
    simp
  constructor
  · rw [hdrop, h]
  · simp only [List.length_append]
    omega

theorem occurs_take {pat t : Str} {i m : Nat}
    (h : (t.drop i).take pat.length = pat) (hb : i + pat.length ≤ t.length)
    (hm : i + pat.length ≤ m) :
    ((t.take m).drop i).take pat.length = pat ∧ i + pat.length ≤ (t.take m).length := by
  constructor
  · rw [List.drop_take, List.take_take, Nat.min_eq_left (by omega), h]
  · simp only [List.length_take]
    omega

theorem occurs_drop (d : Nat) {pat t : Str} {i : Nat}
    (h : (t.drop i).take pat.length = pat) (hb : i + pat.length ≤ t.length)
    (hd : d ≤ i) :
    ((t.drop d).drop (i - d)).take pat.length = pat ∧
      (i - d) + pat.length ≤ (t.drop d).length := by
  constructor
  · rw [List.drop_drop, show d + (i - d) = i by omega, h]
  · simp only [List.length_drop]
    omega

/-- Replacing an occurrence of `{PERSON}` or `{ORG}` cannot destroy an
occurrence of `{LOC}`: the two occurrences never overlap, so the `{LOC}`
occurrence survives in the untouched prefix or suffix. -/
theorem containsLOC_after_replace {tok2 : Str}
    (h2 : tok2 = tokPERSON ∨ tok2 = tokORG) {t : Str} {p : Nat}
    (hfs : findSub tok2 t = some p) (v : Str)
    (hLOC : containsSub tokLOC t = true) :
    containsSub tokLOC (t.take p ++ v ++ t.drop (p + tok2.length)) = true := by
  obtain ⟨i, hifs⟩ : ∃ i, findSub tokLOC t = some i := by
    cases hx : findSub tokLOC t with
    | none => simp [containsSub, hx] at hLOC
    | some j => exact ⟨j, rfl⟩
  obtain ⟨hocc, hbnd⟩ := findSub_some_occurs tokLOC t i hifs
  obtain ⟨hocc2, hbnd2⟩ := findSub_some_occurs tok2 t p hfs
  have hdisj : i + tokLOC.length ≤ p ∨ p + tok2.length ≤ i := by
    rcases h2 with rfl | rfl
    · exact brace_tokens_disjoint hocc hbnd hocc2 hbnd2 (by decide) (by decide)
        (by decide) (by decide) (by decide) (by decide) (by decide)
    · exact brace_tokens_disjoint hocc hbnd hocc2 hbnd2 (by decide) (by decide)
        (by decide) (by decide) (by decide) (by decide) (by decide)
  rcases hdisj with hleft | hright
  · obtain ⟨ht1, ht2⟩ := occurs_take hocc hbnd hleft
    obtain ⟨hu1, hu2⟩ := occurs_append_left (v ++ t.drop (p + tok2.length)) ht1 ht2
    rw [← List.append_assoc] at hu1 hu2
    exact containsSub_intro tokLOC _ i hu1 hu2
  · obtain ⟨ht1, ht2⟩ := occurs_drop (p + tok2.length) hocc hbnd (by omega)
    obtain ⟨hu1, hu2⟩ :=
      occurs_append_right (t.take p ++ v) ht1 ht2
    rw [List.append_assoc] at hu1 hu2
    refine containsSub_intro tokLOC _ ((t.take p ++ v).length + (i - (p + tok2.length))) ?_ ?_
    · rw [← List.append_assoc] at hu1
      exact hu1
    · rw [← List.append_assoc] at hu2
      exact hu2

/-- A single iteration of the substitution loop, in explicit form. -/
theorem substPass_step (tok kind : Str) (pool : List Str) (oracle : Nat → Nat)
    (f idx : Nat) {t : Str} (es : List GenEnt) {pos : Nat}
    (hc : (containsSub tok t && !pool.isEmpty) = true)
    (hfs : findSub tok t = some pos) :
    substPass tok kind pool oracle (f + 1) idx t es =
      substPass tok kind pool oracle f (idx + 1)
        (t.take pos ++ randomChoice oracle idx pool ++ t.drop (pos + tok.length))
        (es ++ [(pos, pos + (randomChoice oracle idx pool).length, kind)]) := by
  simp only [substPass]
  rw [if_pos hc, hfs]

/-- The PERSON and ORG passes preserve the presence of `{LOC}`. -/
theorem substPass_preserves_LOC {tok2 : Str} (h2 : tok2 = tokPERSON ∨ tok2 = tokORG)
    (kind : Str) (pool : List Str) (oracle : Nat → Nat) :
    ∀ fuel idx t es, containsSub tokLOC t = true →
      containsSub tokLOC (substPass tok2 kind pool oracle fuel idx t es).1 = true := by
  intro fuel
  induction fuel with
  | zero => intro idx t es hLOC; exact hLOC
  | succ f ih =>
    intro idx t es hLOC
    by_cases hc : (containsSub tok2 t && !pool.isEmpty) = true
    · have hcontains : containsSub tok2 t = true := by
        cases hcs : containsSub tok2 t
        · rw [hcs] at hc; simp at hc
        · rfl
      obtain ⟨pos, hfs⟩ : ∃ pos, findSub tok2 t = some pos := by
        cases hx : findSub tok2 t with
        | none => simp [containsSub, hx] at hcontains
        | some j => exact ⟨j, rfl⟩
      rw [substPass_step tok2 kind pool oracle f idx es hc hfs]
      exact ih _ _ _ (containsLOC_after_replace h2 hfs _ hLOC)
    · rw [substPass_done tok2 kind pool oracle (Bool.not_eq_true _ |>.mp hc) (f + 1) idx es]
      exact hLOC

/-- The chosen element of a nonempty pool belongs to the pool. -/
theorem randomChoice_mem (oracle : Nat → Nat) (idx : Nat) {pool : List Str}
    (hpool : pool ≠ []) : randomChoice oracle idx pool ∈ pool := by
  have hlt : oracle idx % pool.length < pool.length :=
    Nat.mod_lt _ (List.length_pos.mpr hpool)
  rw [randomChoice, List.getD_eq_getElem _ _ hlt]
  exact List.getElem_mem hlt

/-- A draw from a `{LOC}`-requiring template with an empty location pool is
always rejected. -/
theorem generateOne_none_of_LOC {gen : DataGen} (oracle : Nat → Nat) (fuel idx : Nat)
    (hloc : gen.location_names = [])
    (htpl : ∀ tpl ∈ gen.context_templates, containsSub tokLOC tpl = true)
    (hne : gen.context_templates ≠ []) :
    (generateOne gen oracle fuel idx).1 = none := by
  have htemplate := htpl _ (randomChoice_mem oracle idx hne)
  have h1 := substPass_preserves_LOC (Or.inl rfl) "PERSON".data gen.person_names oracle
    fuel (idx + 1) (randomChoice oracle idx gen.context_templates) [] htemplate
  simp only [generateOne]
  generalize hR1 : substPass tokPERSON "PERSON".data gen.person_names oracle fuel
    (idx + 1) (randomChoice oracle idx gen.context_templates) [] = R1 at h1 ⊢
  have h2 := substPass_preserves_LOC (Or.inr rfl) "ORG".data gen.org_names oracle
    fuel R1.2.2 R1.1 R1.2.1 h1
  generalize hR2 : substPass tokORG "ORG".data gen.org_names oracle fuel
    R1.2.2 R1.1 R1.2.1 = R2 at h2 ⊢
  have hguard : (containsSub tokLOC R2.1 && !gen.location_names.isEmpty) = false := by
    rw [hloc]
    simp
  rw [substPass_done tokLOC "LOC".data gen.location_names oracle hguard fuel R2.2.2 R2.2.1]
  simp [h2]

theorem genLoop_length (gen : DataGen) (oracle : Nat → Nat) (fuel : Nat) :
    ∀ n idx acc, (genLoop gen oracle fuel n idx acc).length ≤ acc.length + n := by
  intro n
  induction n with
  | zero => intro idx acc; simp [genLoop]
  | succ m ih =>
    intro idx acc
    simp only [genLoop]
    cases (generateOne gen oracle fuel idx).1 with
    | some ex =>
      simp only
      calc (genLoop gen oracle fuel m (generateOne gen oracle fuel idx).2
              (acc ++ [ex])).length
          ≤ (acc ++ [ex]).length + m := ih _ _
        _ ≤ acc.length + (m + 1) := by simp; omega
    | none =>
      simp only
      calc (genLoop gen oracle fuel m (generateOne gen oracle fuel idx).2 acc).length
          ≤ acc.length + m := ih _ _
        _ ≤ acc.length + (m + 1) := by omega

theorem genLoop_all_none {gen : DataGen} {oracle : Nat → Nat} {fuel : Nat}
    (h : ∀ idx, (generateOne gen oracle fuel idx).1 = none) :
    ∀ n idx acc, genLoop gen oracle fuel n idx acc = acc := by
  intro n
  induction n with
  | zero => intro idx acc; rfl
  | succ m ih =>
    intro idx acc
    simp only [genLoop]
    rw [h idx]
    exact ih _ _

/-- A draw is accepted exactly when, after the three passes, no placeholder
token remains and the collected span list is nonempty. -/
theorem generateOne_isSome (gen : DataGen) (oracle : Nat → Nat) (fuel idx : Nat) :
    (generateOne gen oracle fuel idx).1.isSome =
      (!(containsSub tokPERSON (passLOC gen oracle fuel idx).1
        || containsSub tokORG (passLOC gen oracle fuel idx).1
        || containsSub tokLOC (passLOC gen oracle fuel idx).1)
       && !(passLOC gen oracle fuel idx).2.1.isEmpty) := by
  rw [generateOne_eq_passes]
  by_cases hA : (!(containsSub tokPERSON (passLOC gen oracle fuel idx).1
      || containsSub tokORG (passLOC gen oracle fuel idx).1
      || containsSub tokLOC (passLOC gen oracle fuel idx).1)) = true
  · rw [if_pos hA, hA]
    by_cases hB : (!(passLOC gen oracle fuel idx).2.1.isEmpty) = true
    · rw [if_pos hB, hB]
      rfl
    · rw [if_neg hB, Bool.not_eq_true _ |>.mp hB]
      rfl
  · rw [if_neg hA, Bool.not_eq_true _ |>.mp hA]
    rfl

instance : IsTotal GenEnt (fun a b => a.1 ≤ b.1) :=
  ⟨fun a b => Nat.le_total a.1 b.1⟩

instance : IsTrans GenEnt (fun a b => a.1 ≤ b.1) :=
  ⟨fun _ _ _ hab hbc => Nat.le_trans hab hbc⟩

/-- The spans of an accepted draw are sorted ascending by start. -/
theorem generateOne_sorted (gen : DataGen) (oracle : Nat → Nat) (fuel idx : Nat)
    (t : Str) (es : List GenEnt)
    (h : (generateOne gen oracle fuel idx).1 = some (t, es)) :
    List.Sorted (fun a b : GenEnt => a.1 ≤ b.1) es := by
  simp only [generateOne] at h
  generalize substPass tokPERSON "PERSON".data gen.person_names oracle fuel
    (idx + 1) (randomChoice oracle idx gen.context_templates) [] = R1 at h
  generalize substPass tokORG "ORG".data gen.org_names oracle fuel
    R1.2.2 R1.1 R1.2.1 = R2 at h
  generalize substPass tokLOC "LOC".data gen.location_names oracle fuel
    R2.2.2 R2.1 R2.2.1 = R3 at h
  by_cases hA : (!(containsSub tokPERSON R3.1 || containsSub tokORG R3.1
      || containsSub tokLOC R3.1)) = true
  · rw [if_pos hA] at h
    by_cases hB : (!R3.2.1.isEmpty) = true
    · rw [if_pos hB] at h
      simp only [Prod.mk.injEq, Option.some.injEq] at h
      rw [← h.2]
      exact List.sorted_insertionSort _ _
    · rw [if_neg hB] at h
      simp at h
  · rw [if_neg hA] at h
    simp at h

/-- C10 witness: a concrete run in which all three loops exit normally. -/
theorem claim10_witness :
    (containsSub tokPERSON
        (passPERSON ⟨["Jo".data], [], [], ["{PERSON} x".data]⟩ (fun _ => 0) 10 0).1
      && !(["Jo".data] : List Str).isEmpty) = false :=
  (claim10_termination_short_values ⟨["Jo".data], [], [], ["{PERSON} x".data]⟩
    (fun _ => 0) (by decide) (by decide) (by decide) 10 0 (by decide)).1

/-- C7: a drawn example is accepted into the output if and only if, after
the three kind passes, its string contains none of `{PERSON}`, `{ORG}`,
`{LOC}` and its collected span list is non-empty; rejected draws are
dropped without retry, so the output has at most the requested length; a
`{LOC}`-requiring template with an empty location pool never contributes an
example, for any requested count; and each accepted example's spans are
sorted ascending by start. -/
theorem claim7_validation_rules :
    (∀ gen oracle fuel idx,
      (generateOne gen oracle fuel idx).1.isSome =
        (!(containsSub tokPERSON (passLOC gen oracle fuel idx).1
          || containsSub tokORG (passLOC gen oracle fuel idx).1
          || containsSub tokLOC (passLOC gen oracle fuel idx).1)
         && !(passLOC gen oracle fuel idx).2.1.isEmpty)) ∧
    (∀ gen num oracle fuel out,
      generateTrainingData gen num oracle fuel = Except.ok out → out.length ≤ num) ∧
    (∀ gen num oracle fuel, gen.location_names = [] →
      (∀ tpl ∈ gen.context_templates, containsSub tokLOC tpl = true) →
      gen.context_templates ≠ [] →
      generateTrainingData gen num oracle fuel = Except.ok []) ∧
    (∀ gen oracle fuel idx t es,
      (generateOne gen oracle fuel idx).1 = some (t, es) →
      List.Sorted (fun a b : GenEnt => a.1 ≤ b.1) es) := by
  refine ⟨fun gen oracle fuel idx => generateOne_isSome gen oracle fuel idx, ?_, ?_, ?_⟩
  · intro gen num oracle fuel out h
    simp only [generateTrainingData] at h
    by_cases he : gen.context_templates.isEmpty = true
    · rw [if_pos he] at h
      cases h
    · rw [if_neg he] at h
      cases h
      simpa using genLoop_length gen oracle fuel num 0 []
  · intro gen num oracle fuel hloc htpl hne
    simp only [generateTrainingData]
    rw [if_neg (by simp [hne]), genLoop_all_none
      (fun i => generateOne_none_of_LOC oracle fuel i hloc htpl hne) num 0 []]
  · exact fun gen oracle fuel idx t es h => generateOne_sorted gen oracle fuel idx t es h

/-- C7 witness: a template requiring a location with an empty location pool
yields an empty output for a requested count of 3. -/
theorem claim7_witness :
    generateTrainingData ⟨[], [], [], ["{LOC} ici".data]⟩ 3 (fun _ => 0) 9 =
      Except.ok [] :=
  claim7_validation_rules.2.2.1 ⟨[], [], [], ["{LOC} ici".data]⟩ 3 (fun _ => 0) 9
    rfl (by decide) (by decide)

/-- C6 witness: the coverage example evaluated at a nontrivial oracle and
the minimal sufficient fuel. -/
theorem claim6_witness :
    generateTrainingData genCoverage 1 (fun i => i + 5) 7 =
      Except.ok [("Jean Dupont travaille chez Microsoft depuis janvier.".data,
        [(0, 11, "PERSON".data), (27, 36, "ORG".data)])] :=
  claim6_synthesizer_coverage (fun i => i + 5) 7 (by decide)

/-! ## Registry lemmas (pseudonymizer) -/

theorem dictGet_append_of_some {k : Str} {m : List (Str × Str)} {v : Str}
    (h : dictGet k m = some v) (l : List (Str × Str)) : dictGet k (m ++ l) = some v := by
  simp only [dictGet] at h ⊢
  cases hf : m.find? (fun p => p.1 == k) with
  | none => rw [hf] at h; cases h
  | some a =>
    rw [hf] at h
    rw [List.find?_append, hf]
    simpa using h

theorem dictGet_append_single_self {k : Str} {m : List (Str × Str)}
    (h : dictGet k m = none) (v : Str) : dictGet k (m ++ [(k, v)]) = some v := by
  simp only [dictGet] at h ⊢
  cases hf : m.find? (fun p => p.1 == k) with
  | none =>
    rw [List.find?_append, hf]
    simp [List.find?]
  | some a => rw [hf] at h; cases h

/-- The shape of the registry after one `resolve`: unchanged on a hit, one
entry appended on a miss. -/
theorem resolve_corr (st : PsState) (x ty : Str) (cfg : PseudonymizationConfig) :
    (generateConsistentReplacement st x ty cfg).2.correspondences =
      (match dictGet (mkKey ty x) st.correspondences with
      | some _ => st.correspondences
      | none => st.correspondences ++
          [(mkKey ty x, (generateConsistentReplacement st x ty cfg).1)]) := by
  simp only [generateConsistentReplacement]
  cases hf : dictGet (mkKey ty x) st.correspondences with
  | some r => rfl
  | none => split_ifs <;> rfl

/-- The counters of the six types never decrease across one `resolve`. -/
theorem resolve_hit {st : PsState} {x ty r : Str} {cfg : PseudonymizationConfig}
    (h : dictGet (mkKey ty x) st.correspondences = some r) :
    generateConsistentReplacement st x ty cfg = (r, st) := by
  simp only [generateConsistentReplacement]
  rw [h]

/-- After resolving, the key maps to the returned pseudonym. -/
theorem resolve_lookup_after (st : PsState) (x ty : Str) (cfg : PseudonymizationConfig) :
    dictGet (mkKey ty x) (generateConsistentReplacement st x ty cfg).2.correspondences =
      some (generateConsistentReplacement st x ty cfg).1 := by
  rw [resolve_corr]
  cases hf : dictGet (mkKey ty x) st.correspondences with
  | some r =>
    rw [resolve_hit hf]
    exact hf
  | none => exact dictGet_append_single_self hf _

/-- Stored correspondences are never overwritten by later resolves. -/
theorem resolve_preserves_lookup {k v : Str} (st : PsState) (x ty : Str)
    (cfg : PseudonymizationConfig) (h : dictGet k st.correspondences = some v) :
    dictGet k (generateConsistentReplacement st x ty cfg).2.correspondences = some v := by
  rw [resolve_corr]
  cases hf : dictGet (mkKey ty x) st.correspondences with
  | some r => exact h
  | none => exact dictGet_append_of_some h _

/-- A sequence of further resolve calls, as `(text, type, config)` triples. -/
def applyCalls (calls : List (Str × Str × PseudonymizationConfig)) (st : PsState) :
    PsState :=
  calls.foldl (fun s c => (generateConsistentReplacement s c.1 c.2.1 c.2.2).2) st

theorem applyCalls_preserves_lookup {k v : Str}
    (calls : List (Str × Str × PseudonymizationConfig)) :
    ∀ st : PsState, dictGet k st.correspondences = some v →
      dictGet k (applyCalls calls st).correspondences = some v := by
  induction calls with
  | nil => intro st h; exact h
  | cons c rest ih =>
    intro st h
    exact ih _ (resolve_preserves_lookup st c.1 c.2.1 c.2.2 h)

/-- The registry keys are pairwise distinct (a Python dict invariant). -/
def KeysNoDup (m : List (Str × Str)) : Prop := (m.map Prod.fst).Nodup

theorem dictGet_none_not_mem {k : Str} {m : List (Str × Str)}
    (h : dictGet k m = none) : k ∉ m.map Prod.fst := by
  intro hmem
  obtain ⟨p, hp, he⟩ := List.mem_map.mp hmem
  simp only [dictGet, Option.map_eq_none'] at h
  have := List.find?_eq_none.mp h p hp
  simp [he] at this

theorem resolve_keys_nodup {st : PsState} (x ty : Str) (cfg : PseudonymizationConfig)
    (h : KeysNoDup st.correspondences) :
    KeysNoDup (generateConsistentReplacement st x ty cfg).2.correspondences := by
  rw [KeysNoDup, resolve_corr]
  cases hf : dictGet (mkKey ty x) st.correspondences with
  | some r => exact h
  | none =>
    rw [List.map_append]
    rw [List.nodup_append]
    refine ⟨h, by simp, ?_⟩
    intro a ha hb
    simp only [List.map_cons, List.map_nil, List.mem_singleton] at hb
    rw [hb] at ha
    exact dictGet_none_not_mem hf ha

theorem applyCalls_keys_nodup (calls : List (Str × Str × PseudonymizationConfig)) :
    ∀ st : PsState, KeysNoDup st.correspondences →
      KeysNoDup (applyCalls calls st).correspondences := by
  induction calls with
  | nil => intro st h; exact h
  | cons c rest ih => intro st h; exact ih _ (resolve_keys_nodup c.1 c.2.1 c.2.2 h)

/-- Number of registry entries carrying a given key. -/
def countKey (k : Str) (m : List (Str × Str)) : Nat := m.countP (fun p => p.1 == k)

theorem countKey_eq_one {k v : Str} :
    ∀ {m : List (Str × Str)}, KeysNoDup m → dictGet k m = some v → countKey k m = 1 := by
  intro m
  induction m with
  | nil => intro _ hget; cases hget
  | cons p tl ih =>
    intro hnd hget
    have hnd' : KeysNoDup tl := by
      rw [KeysNoDup, List.map_cons, List.nodup_cons] at hnd
      exact hnd.2
    have hni : p.1 ∉ tl.map Prod.fst := by
      rw [KeysNoDup, List.map_cons, List.nodup_cons] at hnd
      exact hnd.1
    cases hpk : (p.1 == k) with
    | true =>
      have hk : p.1 = k := by simpa using hpk
      have hzero : tl.countP (fun q => q.1 == k) = 0 := by
        rw [List.countP_eq_zero]
        intro q hq
        simp only [beq_iff_eq]
        intro habs
        have hmem : q.1 ∈ tl.map Prod.fst := List.mem_map_of_mem Prod.fst hq
        rw [habs, ← hk] at hmem
        exact hni hmem
      rw [countKey, List.countP_cons, hzero]
      simp [hpk]
    | false =>
      have hget' : dictGet k tl = some v := by
        simp only [dictGet, List.find?] at hget ⊢
        rw [hpk] at hget
        exact hget
      rw [countKey, List.countP_cons]
      simp only [hpk, if_false, Nat.add_zero]
      exact ih hnd' hget'

/-- C1: two calls to the replacement resolver with the same entity type and
case-insensitively equal original texts return the identical pseudonym —
even with arbitrary other resolve calls, in either mode, in between — and
the registry then holds exactly one entry for that (type, normalised text)
key. -/
theorem claim1_idempotent_replacement (st : PsState) (x1 x2 ty : Str)
    (cfg1 cfg2 : PseudonymizationConfig)
    (calls : List (Str × Str × PseudonymizationConfig))
    (hlow : pyLower x1 = pyLower x2) (hnd : KeysNoDup st.correspondences) :
    (generateConsistentReplacement
        (applyCalls calls (generateConsistentReplacement st x1 ty cfg1).2)
        x2 ty cfg2).1 =
      (generateConsistentReplacement st x1 ty cfg1).1 ∧
    countKey (mkKey ty x1)
      (generateConsistentReplacement
        (applyCalls calls (generateConsistentReplacement st x1 ty cfg1).2)
        x2 ty cfg2).2.correspondences = 1 := by
  have hkey : mkKey ty x2 = mkKey ty x1 := by
    simp only [mkKey, hlow]
  have h1 := resolve_lookup_after st x1 ty cfg1
  have h2 := applyCalls_preserves_lookup calls _ h1
  have hhit := @resolve_hit _ x2 _ _ cfg2 (hkey ▸ h2)
  rw [hhit]
  refine ⟨rfl, ?_⟩
  have hnd2 : KeysNoDup (applyCalls calls
      (generateConsistentReplacement st x1 ty cfg1).2).correspondences :=
    applyCalls_keys_nodup calls _ (resolve_keys_nodup x1 ty cfg1 hnd)
  exact countKey_eq_one hnd2 h2

/-- C1 witness: the same person resolved twice (case-insensitively), with an
organisation resolved in between, yields one pseudonym and one registry
entry. -/
theorem claim1_witness :
    (generateConsistentReplacement
        (applyCalls [("Acme".data, "ORGANISATION".data, {})]
          (generateConsistentReplacement initState "Jean Dupont".data
            "PERSONNE".data {}).2)
        "JEAN DUPONT".data "PERSONNE".data {}).1 =
      (generateConsistentReplacement initState "Jean Dupont".data
        "PERSONNE".data {}).1 ∧
    countKey (mkKey "PERSONNE".data "Jean Dupont".data)
      (generateConsistentReplacement
        (applyCalls [("Acme".data, "ORGANISATION".data, {})]
          (generateConsistentReplacement initState "Jean Dupont".data
            "PERSONNE".data {}).2)
        "JEAN DUPONT".data "PERSONNE".data {}).2.correspondences = 1 :=
  claim1_idempotent_replacement initState "Jean Dupont".data "JEAN DUPONT".data
    "PERSONNE".data {} {} [("Acme".data, "ORGANISATION".data, {})]
    (by decide) (by simp [KeysNoDup, initState])

/-! ## The regex pass runs after the entity pass, on the same registry -/

theorem subMatches_preserves_lookup {k v : Str} (cfg : PseudonymizationConfig)
    (etype s : Str) :
    ∀ (ms : List (Nat × Nat)) (st : PsState) (c : Nat),
      dictGet k st.correspondences = some v →
      dictGet k (subMatches cfg etype s st ms c).2.2.correspondences = some v := by
  intro ms
  induction ms with
  | nil => intro st c h; exact h
  | cons ie rest ih =>
    intro st c h
    match ie with
    | (i, e) =>
      exact ih _ e (resolve_preserves_lookup st _ etype cfg h)

theorem subMatches_log_lookup (cfg : PseudonymizationConfig) (etype s : Str) :
    ∀ (ms : List (Nat × Nat)) (st : PsState) (c : Nat),
      ∀ p ∈ (subMatches cfg etype s st ms c).2.1,
        dictGet (mkKey etype p.1)
          (subMatches cfg etype s st ms c).2.2.correspondences = some p.2 := by
  intro ms
  induction ms with
  | nil => intro st c p hp; cases hp
  | cons ie rest ih =>
    intro st c p hp
    match ie with
    | (i, e) =>
      simp only [subMatches, List.mem_cons] at hp
      rcases hp with rfl | hp
    -- the head pair: resolved now, preserved through the remaining matches
      · exact subMatches_preserves_lookup cfg etype s rest _ e
          (resolve_lookup_after st _ etype cfg)
      · exact ih _ e p hp

/-- C9: the pseudonymized text is the regex pass applied to the output of
the named-entity pass (the two passes never interleave and the regex pass
starts from the entity pass's registry state), and within one regex pass
any two matches whose matched substrings agree case-insensitively (in
particular byte-identical matches) are replaced by the same pseudonym,
because each match is resolved through the shared registry with the same
case-insensitive key. -/
theorem claim9_regex_after_entities :
    (∀ (st : PsState) (text : Str) (ents : List SpacyEnt)
        (config : PseudonymizationConfig),
      (pseudonymize st text ents config).2.pseudonymized_text =
        (pseudonymizeRegexPatterns (pseudoEntLoop config st text 0 [] ents).1
          (pseudoEntLoop config st text 0 [] ents).2.1 config).1 ∧
      (pseudonymize st text ents config).1 =
        (pseudonymizeRegexPatterns (pseudoEntLoop config st text 0 [] ents).1
          (pseudoEntLoop config st text 0 [] ents).2.1 config).2) ∧
    (∀ (cfg : PseudonymizationConfig) (etype s : Str) (ms : List (Nat × Nat))
        (st : PsState) (c : Nat) (p q : Str × Str),
      p ∈ (subMatches cfg etype s st ms c).2.1 →
      q ∈ (subMatches cfg etype s st ms c).2.1 →
      pyLower p.1 = pyLower q.1 → p.2 = q.2) := by
  refine ⟨fun st text ents config => ⟨rfl, rfl⟩, ?_⟩
  intro cfg etype s ms st c p q hp hq hlow
  have h1 := subMatches_log_lookup cfg etype s ms st c p hp
  have h2 := subMatches_log_lookup cfg etype s ms st c q hq
  have hkey : mkKey etype p.1 = mkKey etype q.1 := by
    simp only [mkKey, hlow]
  rw [hkey, h2] at h1
  exact (Option.some.inj h1).symm

/-- C9 witness: the same email address matched twice in one pass receives
the same pseudonym. -/
theorem claim9_witness :
    ((reSub matchEmailAt "EMAIL".data initState {} "a@b.fr et a@b.fr".data).2.1.getD 0
        ([], [])).2 =
      ((reSub matchEmailAt "EMAIL".data initState {} "a@b.fr et a@b.fr".data).2.1.getD 1
        ([], [])).2 :=
  claim9_regex_after_entities.2 {} "EMAIL".data "a@b.fr et a@b.fr".data
    (scanMatches matchEmailAt "a@b.fr et a@b.fr".data
      ("a@b.fr et a@b.fr".data.length + 1) 0) initState 0 _ _
    (by decide) (by decide) (by decide)

/-! ## The entity loop performs no validation and no sorting -/

/-- The originals logged by the entity loop are exactly the texts of the
masked spans, in the order the spans were supplied. -/
theorem pseudoEntLoop_originals (config : PseudonymizationConfig) :
    ∀ (ents : List SpacyEnt) (st : PsState) (text : Str) (offset : Int)
      (log : List AppliedEnt),
      ((pseudoEntLoop config st text offset log ents).2.2.2).map (·.original) =
        log.map (·.original) ++
          (ents.filter (fun e => shouldMask (entityMapping e.label) config)).map
            (·.text) := by
  intro ents
  induction ents with
  | nil => intro st text offset log; simp [pseudoEntLoop]
  | cons ent rest ih =>
    intro st text offset log
    simp only [pseudoEntLoop]
    by_cases hm : shouldMask (entityMapping ent.label) config = true
    · rw [if_pos hm, ih]
      rw [List.filter_cons, if_pos hm]
      simp
    · rw [if_neg hm, ih]
      rw [List.filter_cons, if_neg hm]

/-- C3 (amended): the rewrite performs no span validation at all — for
every input, including overlapping, out-of-range or inverted spans, the
loop completes, splices every masked span at its offset-adjusted position
(Python slice semantics clamping out-of-range indices), and logs exactly
the masked spans; no error path exists and no input is rejected. -/
theorem claim3_no_validation (config : PseudonymizationConfig) (st : PsState)
    (text : Str) (ents : List SpacyEnt) :
    ((pseudoEntLoop config st text 0 [] ents).2.2.2).length =
      (ents.filter (fun e => shouldMask (entityMapping e.label) config)).length := by
  have h := pseudoEntLoop_originals config ents st text 0 []
  have hlen := congrArg List.length h
  simpa using hlen

/-- C3 counterexample: on two overlapping PERSON spans `[1,4)` and `[2,5)`
of `"abcde"` the rewrite does not fail: it produces a (corrupted) rewritten
text and processes both spans. -/
theorem claim3_counterexample :
    (2 : Nat) < 4 ∧
    (pseudoEntLoop {} initState "abcde".data 0 []
      [⟨"PER".data, 1, 4, "bcd".data⟩, ⟨"PER".data, 2, 5, "cde".data⟩]).2.1 =
      "aPERSONNEPERSONNE_2".data ∧
    (pseudoEntLoop {} initState "abcde".data 0 []
      [⟨"PER".data, 1, 4, "bcd".data⟩, ⟨"PER".data, 2, 5, "cde".data⟩]).2.2.2.length
      = 2 :=
  ⟨by decide, rfl, rfl⟩

/-- C8 (amended): the rewrite does not sort its input spans: it processes
them exactly in the supplied (detector) order — the applied-entity log
lists the masked spans' texts in supplied order — and the rewritten text
for spans supplied out of order is not in general the text obtained from
the same spans supplied sorted; offset correctness relies on the external
detector supplying spans already ascending. -/
theorem claim8_processing_order (config : PseudonymizationConfig) (st : PsState)
    (text : Str) (ents : List SpacyEnt) :
    ((pseudoEntLoop config st text 0 [] ents).2.2.2).map (·.original) =
      (ents.filter (fun e => shouldMask (entityMapping e.label) config)).map
        (·.text) := by
  simpa using pseudoEntLoop_originals config ents st text 0 []

/-- C8 counterexample: two non-overlapping spans supplied in descending
order produce a different rewritten text than the same spans supplied
ascending (the second list is the by-start insertion sort of the first). -/
theorem claim8_counterexample :
    List.insertionSort (fun a b : SpacyEnt => a.start_char ≤ b.start_char)
      [⟨"PER".data, 5, 6, "b".data⟩, ⟨"PER".data, 0, 1, "a".data⟩] =
      [⟨"PER".data, 0, 1, "a".data⟩, ⟨"PER".data, 5, 6, "b".data⟩] ∧
    (pseudoEntLoop {} initState "a cd b".data 0 []
      [⟨"PER".data, 5, 6, "b".data⟩, ⟨"PER".data, 0, 1, "a".data⟩]).2.1 ≠
    (pseudoEntLoop {} initState "a cd b".data 0 []
      [⟨"PER".data, 0, 1, "a".data⟩, ⟨"PER".data, 5, 6, "b".data⟩]).2.1 :=
  ⟨by decide, by decide⟩

/-! ## Offset integrity of the entity loop -/

/-- Well-formed detector output from cut point `c` on: spans are ascending,
non-overlapping, inside the text, and each carries the text slice it
covers. -/
def OkSpans (T : Str) : Nat → List SpacyEnt → Prop
  | _, [] => True
  | c, e :: rest =>
    c ≤ e.start_char ∧ e.start_char ≤ e.end_char ∧ e.end_char ≤ T.length ∧
    e.text = (T.drop e.start_char).take (e.end_char - e.start_char) ∧
    OkSpans T e.end_char rest

/-- The cumulative length change recorded in an applied-entity log. -/
def logDelta (log : List AppliedEnt) : Int :=
  (log.map (fun p => (p.replacement.length : Int) - (p.original.length : Int))).sum

theorem logDelta_nil : logDelta [] = 0 := rfl

theorem logDelta_cons (a : AppliedEnt) (l : List AppliedEnt) :
    logDelta (a :: l) =
      ((a.replacement.length : Int) - (a.original.length : Int)) + logDelta l := by
  simp [logDelta]

/-- The canonical interleaving of untouched source segments and
replacements: each replacement sits exactly where its offset-adjusted span
was. -/
def rebuilt (T : Str) : Nat → List (Nat × Nat) → List Str → Str
  | c, [], _ => T.drop c
  | c, _ :: _, [] => T.drop c
  | c, (s, e) :: ps, r :: rs => (T.drop c).take (s - c) ++ r ++ rebuilt T e ps rs

/-- Default span used with `getD`. -/
def entDefault : SpacyEnt := ⟨[], 0, 0, []⟩

/-- Default log entry used with `getD`. -/
def appliedDefault : AppliedEnt := ⟨[], [], [], []⟩

/-- Splicing an aligned span: for the invariant text
`done ++ T.drop c` with running offset `done.length - c`, the splice of a
span `[s,e)` (with `c ≤ s ≤ e ≤ |T|`) lands exactly between the rewritten
prefix and the untouched suffix. -/
theorem pySplice_aligned (T done r : Str) (c s e : Nat)
    (hcs : c ≤ s) (hse : s ≤ e) (heL : e ≤ T.length) :
    pySplice (done ++ T.drop c) ((s : Int) + ((done.length : Int) - (c : Int)))
      ((e : Int) + ((done.length : Int) - (c : Int))) r =
      done ++ (T.drop c).take (s - c) ++ r ++ T.drop e := by
  unfold pySplice pyIdx
  rw [if_neg (by omega), if_neg (by omega)]
  have hs : ((s : Int) + ((done.length : Int) - (c : Int))).toNat =
      done.length + (s - c) := by omega
  have he : ((e : Int) + ((done.length : Int) - (c : Int))).toNat =
      done.length + (e - c) := by omega
  rw [hs, he]
  have htake : (done ++ T.drop c).take (done.length + (s - c)) =
      done ++ (T.drop c).take (s - c) := by
    rw [List.take_append_eq_append_take]
    simp
  have hdrop : (done ++ T.drop c).drop (done.length + (e - c)) = T.drop e := by
    rw [List.drop_append_eq_append_drop, List.drop_of_length_le (by omega)]
    simp only [List.nil_append, List.drop_drop]
    congr 1
    omega
  rw [htake, hdrop]

/-- Invariant induction for the entity loop: starting from the rewritten
prefix `done` and cut point `c` (offset `done.length - c`), the loop
produces the canonical interleaving, appends to the log exactly the masked
spans (original text recorded verbatim), and changes the length by the
logged delta. -/
theorem entLoop_main (config : PseudonymizationConfig) (T : Str) :
    ∀ (ents : List SpacyEnt) (st : PsState) (done : Str) (c : Nat)
      (log0 : List AppliedEnt),
      OkSpans T c (ents.filter (fun e => shouldMask (entityMapping e.label) config)) →
      c ≤ T.length →
      ∃ newlog : List AppliedEnt,
        (pseudoEntLoop config st (done ++ T.drop c)
            ((done.length : Int) - (c : Int)) log0 ents).2.1 =
          done ++ rebuilt T c
            ((ents.filter (fun e => shouldMask (entityMapping e.label) config)).map
              (fun e => (e.start_char, e.end_char)))
            (newlog.map (·.replacement)) ∧
        (pseudoEntLoop config st (done ++ T.drop c)
            ((done.length : Int) - (c : Int)) log0 ents).2.2.2 = log0 ++ newlog ∧
        newlog.map (·.original) =
          (ents.filter (fun e => shouldMask (entityMapping e.label) config)).map
            (·.text) ∧
        (((pseudoEntLoop config st (done ++ T.drop c)
            ((done.length : Int) - (c : Int)) log0 ents).2.1).length : Int) =
          (T.length : Int) + ((done.length : Int) - (c : Int)) + logDelta newlog := by
  intro ents
  induction ents with
  | nil =>
    intro st done c log0 hok hc
    refine ⟨[], ?_, ?_, ?_, ?_⟩
    · simp [pseudoEntLoop, rebuilt]
    · simp [pseudoEntLoop]
    · simp
    · simp only [pseudoEntLoop, logDelta_nil, List.length_append, List.length_drop]
      push_cast
      omega
  | cons ent rest ih =>
    intro st done c log0 hok hc
    by_cases hm : shouldMask (entityMapping ent.label) config = true
    · rw [List.filter_cons, if_pos hm] at hok
      obtain ⟨hcs, hse, heL, hslice, hok'⟩ := hok
      have horig : ent.text.length = ent.end_char - ent.start_char := by
        rw [hslice]
        simp only [List.length_take, List.length_drop]
        omega
      have hloop : pseudoEntLoop config st (done ++ T.drop c)
          ((done.length : Int) - (c : Int)) log0 (ent :: rest) =
          pseudoEntLoop config
            (generateConsistentReplacement st ent.text (entityMapping ent.label)
              config).2
            ((done ++ (T.drop c).take (ent.start_char - c) ++
              (generateConsistentReplacement st ent.text (entityMapping ent.label)
                config).1) ++ T.drop ent.end_char)
            ((((done ++ (T.drop c).take (ent.start_char - c) ++
              (generateConsistentReplacement st ent.text (entityMapping ent.label)
                config).1).length : Int)) - (ent.end_char : Int))
            (log0 ++ [⟨ent.text,
              (generateConsistentReplacement st ent.text (entityMapping ent.label)
                config).1, entityMapping ent.label,
              natToChars ent.start_char ++ '-' :: natToChars ent.end_char⟩]) rest := by
        simp only [pseudoEntLoop]
        rw [if_pos hm]
        rw [pySplice_aligned T done
          (generateConsistentReplacement st ent.text (entityMapping ent.label)
            config).1 c ent.start_char ent.end_char hcs hse heL]
        rw [show done ++ (T.drop c).take (ent.start_char - c) ++
            (generateConsistentReplacement st ent.text (entityMapping ent.label)
              config).1 ++ T.drop ent.end_char =
            (done ++ (T.drop c).take (ent.start_char - c) ++
              (generateConsistentReplacement st ent.text (entityMapping ent.label)
                config).1) ++ T.drop ent.end_char by
          simp [List.append_assoc]]
        rw [show ((done.length : Int) - (c : Int)) +
            ((generateConsistentReplacement st ent.text (entityMapping ent.label)
              config).1.length : Int) - (ent.text.length : Int) =
            (((done ++ (T.drop c).take (ent.start_char - c) ++
              (generateConsistentReplacement st ent.text (entityMapping ent.label)
                config).1).length : Int)) - (ent.end_char : Int) by
          simp only [List.length_append, List.length_take, List.length_drop]
          push_cast
          omega]
      obtain ⟨newlog', h1, h2, h3, h4⟩ := ih
        (generateConsistentReplacement st ent.text (entityMapping ent.label) config).2
        (done ++ (T.drop c).take (ent.start_char - c) ++
          (generateConsistentReplacement st ent.text (entityMapping ent.label)
            config).1)
        ent.end_char
        (log0 ++ [⟨ent.text,
          (generateConsistentReplacement st ent.text (entityMapping ent.label)
            config).1, entityMapping ent.label,
          natToChars ent.start_char ++ '-' :: natToChars ent.end_char⟩])
        hok' heL
      refine ⟨⟨ent.text,
        (generateConsistentReplacement st ent.text (entityMapping ent.label)
          config).1, entityMapping ent.label,
        natToChars ent.start_char ++ '-' :: natToChars ent.end_char⟩ :: newlog',
        ?_, ?_, ?_, ?_⟩
      · rw [hloop, h1, List.filter_cons, if_pos hm]
        simp only [List.map_cons, rebuilt]
        simp [List.append_assoc]
      · rw [hloop, h2]
        simp
      · rw [List.filter_cons, if_pos hm]
        simp only [List.map_cons]
        rw [h3]
      · rw [hloop, h4, logDelta_cons]
        simp only [List.length_append, List.length_take, List.length_drop]
        push_cast
        omega
    · rw [List.filter_cons, if_neg hm] at hok
      have hstep : pseudoEntLoop config st (done ++ T.drop c)
          ((done.length : Int) - (c : Int)) log0 (ent :: rest) =
          pseudoEntLoop config st (done ++ T.drop c)
            ((done.length : Int) - (c : Int)) log0 rest := by
        simp only [pseudoEntLoop]
        rw [if_neg hm]
      rw [hstep, List.filter_cons, if_neg hm]
      exact ih st done c log0 hok hc

/-- In the canonical interleaving, the k-th replacement occupies exactly
the offset-adjusted position of its span: dropping
`start_k + sum of the earlier length deltas` characters exposes it. -/
theorem rebuilt_extract (T : Str) :
    ∀ (ms : List SpacyEnt) (log : List AppliedEnt) (c k : Nat),
      OkSpans T c ms →
      log.map (·.original) = ms.map (·.text) →
      k < log.length →
      0 ≤ (((ms.getD k entDefault).start_char : Int) - (c : Int) +
        logDelta (log.take k)) ∧
      ((rebuilt T c (ms.map (fun e => (e.start_char, e.end_char)))
          (log.map (·.replacement))).drop
        ((((ms.getD k entDefault).start_char : Int) - (c : Int) +
          logDelta (log.take k)).toNat)).take
        ((log.getD k appliedDefault).replacement.length) =
      (log.getD k appliedDefault).replacement := by
  intro ms
  induction ms with
  | nil =>
    intro log c k hok heq hk
    have : log = [] := by
      cases log with
      | nil => rfl
      | cons a l => simp at heq
    subst this
    cases hk
  | cons e ms' ih =>
    intro log c k hok heq hk
    obtain ⟨hcs, hse, heL, hslice, hok'⟩ := hok
    match log with
    | [] => cases hk
    | a :: log' =>
      simp only [List.map_cons, List.cons.injEq] at heq
      obtain ⟨haorig, heq'⟩ := heq
      have halen : a.original.length = e.end_char - e.start_char := by
        rw [haorig, hslice]
        simp only [List.length_take, List.length_drop]
        omega
      have hAlen : ((T.drop c).take (e.start_char - c)).length = e.start_char - c := by
        simp only [List.length_take, List.length_drop]
        omega
      match k with
      | 0 =>
        refine ⟨by simp [logDelta_nil]; omega, ?_⟩
        simp only [List.getD_cons_zero, List.take_zero, logDelta_nil, Int.add_zero,
          List.map_cons, rebuilt]
        have hpos : ((e.start_char : Int) - (c : Int)).toNat = e.start_char - c := by
          omega
        rw [hpos]
        rw [List.drop_append_eq_append_drop, List.drop_append_eq_append_drop,
          List.drop_of_length_le (le_of_eq hAlen), hAlen, Nat.sub_self, List.drop_zero,
          List.nil_append]
        rw [List.take_append_eq_append_take]
        simp
      | k + 1 =>
        obtain ⟨ihpos, ihext⟩ := ih log' e.end_char k hok' heq'
          (by simpa using Nat.lt_of_succ_lt_succ hk)
        have hX : (((e.start_char :: [] : List Nat).length : Int)) = 1 := by simp
        have hdelta : logDelta ((a :: log').take (k + 1)) =
            ((a.replacement.length : Int) - (a.original.length : Int)) +
              logDelta (log'.take k) := by
          simp [logDelta_cons]
        refine ⟨?_, ?_⟩
        · simp only [List.getD_cons_succ, hdelta]
          have : (0 : Int) ≤ ((ms'.getD k entDefault).start_char : Int) -
              (e.end_char : Int) + logDelta (log'.take k) := ihpos
          have hrepl : (0 : Int) ≤ (a.replacement.length : Int) := by positivity
          omega
        · simp only [List.getD_cons_succ, hdelta, List.map_cons, rebuilt]
          have hsplit : (((ms'.getD k entDefault).start_char : Int) - (c : Int) +
              (((a.replacement.length : Int) - (a.original.length : Int)) +
                logDelta (log'.take k))).toNat =
              ((e.start_char - c) + a.replacement.length) +
                ((((ms'.getD k entDefault).start_char : Int) - (e.end_char : Int) +
                  logDelta (log'.take k)).toNat) := by
            omega
          rw [hsplit]
          have hgroup : (T.drop c).take (e.start_char - c) ++ a.replacement ++
              rebuilt T e.end_char (ms'.map (fun x => (x.start_char, x.end_char)))
                (log'.map (·.replacement)) =
              ((T.drop c).take (e.start_char - c) ++ a.replacement) ++
              rebuilt T e.end_char (ms'.map (fun x => (x.start_char, x.end_char)))
                (log'.map (·.replacement)) := by
            simp [List.append_assoc]
          rw [hgroup]
          have hlenAB : ((T.drop c).take (e.start_char - c) ++ a.replacement).length =
              (e.start_char - c) + a.replacement.length := by
            simp only [List.length_append, hAlen]
          rw [← hlenAB]
          rw [List.drop_append_eq_append_drop, List.drop_of_length_le (Nat.le_add_right _ _),
            List.nil_append, Nat.add_sub_cancel_left]
          exact ihext

def decOkSpans (T : Str) : (c : Nat) → (ms : List SpacyEnt) → Decidable (OkSpans T c ms)
  | _, [] => .isTrue trivial
  | c, e :: rest =>
    letI := decOkSpans T e.end_char rest
    inferInstanceAs (Decidable (c ≤ e.start_char ∧ e.start_char ≤ e.end_char ∧
      e.end_char ≤ T.length ∧
      e.text = (T.drop e.start_char).take (e.end_char - e.start_char) ∧
      OkSpans T e.end_char rest))

instance (T : Str) (c : Nat) (ms : List SpacyEnt) : Decidable (OkSpans T c ms) :=
  decOkSpans T c ms

/-- C2: offset integrity.  For well-formed spans (ascending,
non-overlapping, in bounds, carrying their slices), the entity loop's
output length is the source length plus the sum of the logged
`len(replacement) - len(original)` deltas, the output text is exactly the
canonical interleaving of untouched segments and replacements, and each
replacement occupies exactly the offset-adjusted position of its span. -/
theorem claim2_offset_integrity (config : PseudonymizationConfig) (st : PsState)
    (T : Str) (ents : List SpacyEnt)
    (hok : OkSpans T 0
      (ents.filter (fun e => shouldMask (entityMapping e.label) config))) :
    (((pseudoEntLoop config st T 0 [] ents).2.1).length : Int) =
      (T.length : Int) + logDelta (pseudoEntLoop config st T 0 [] ents).2.2.2 ∧
    (pseudoEntLoop config st T 0 [] ents).2.1 =
      rebuilt T 0
        ((ents.filter (fun e => shouldMask (entityMapping e.label) config)).map
          (fun e => (e.start_char, e.end_char)))
        (((pseudoEntLoop config st T 0 [] ents).2.2.2).map (·.replacement)) ∧
    ∀ k, k < ((pseudoEntLoop config st T 0 [] ents).2.2.2).length →
      (((pseudoEntLoop config st T 0 [] ents).2.1).drop
          (((((ents.filter (fun e => shouldMask (entityMapping e.label) config)).getD k
              entDefault).start_char : Int) +
            logDelta (((pseudoEntLoop config st T 0 [] ents).2.2.2).take k)).toNat)).take
        ((((pseudoEntLoop config st T 0 [] ents).2.2.2).getD k
          appliedDefault).replacement.length) =
      (((pseudoEntLoop config st T 0 [] ents).2.2.2).getD k appliedDefault).replacement
    := by
  obtain ⟨newlog, h1, h2, h3, h4⟩ := entLoop_main config T ents st [] 0 [] hok
    (Nat.zero_le _)
  simp only [List.nil_append, List.drop_zero, List.length_nil, Nat.cast_zero,
    sub_zero, Int.sub_zero, add_zero] at h1 h2 h3 h4
  refine ⟨?_, ?_, ?_⟩
  · rw [h2]
    simpa using h4
  · rw [h2]
    simpa using h1
  · intro k hk
    rw [h2] at hk ⊢
    rw [h1]
    obtain ⟨-, hext⟩ := rebuilt_extract T
      (ents.filter (fun e => shouldMask (entityMapping e.label) config)) newlog 0 k
      hok h3 hk
    simpa using hext

/-- C2 witness: a concrete two-span rewrite satisfying the length
formula. -/
theorem claim2_witness :
    (((pseudoEntLoop {} initState "abcdef".data 0 []
        [⟨"PER".data, 1, 2, "b".data⟩, ⟨"LOC".data, 3, 5, "de".data⟩]).2.1).length : Int)
      = (("abcdef".data : Str).length : Int) +
        logDelta (pseudoEntLoop {} initState "abcdef".data 0 []
          [⟨"PER".data, 1, 2, "b".data⟩, ⟨"LOC".data, 3, 5, "de".data⟩]).2.2.2 :=
  (claim2_offset_integrity {} initState "abcdef".data
    [⟨"PER".data, 1, 2, "b".data⟩, ⟨"LOC".data, 3, 5, "de".data⟩] (by decide)).1

/-! ## Distinctness of generated pseudonyms (consistent mode) -/

/-- The six entity types that own a counter in `_generate_consistent_replacement`. -/
def counterTypes : List Str :=
  ["PERSONNE".data, "ORGANISATION".data, "LIEU".data, "DATE".data,
   "EMAIL".data, "TELEPHONE".data]

/-- The counter a type owns. -/
def ctr (ty : Str) (st : PsState) : Nat :=
  if ty = "PERSONNE".data then st.person_counter
  else if ty = "ORGANISATION".data then st.org_counter
  else if ty = "LIEU".data then st.location_counter
  else if ty = "DATE".data then st.date_counter
  else if ty = "EMAIL".data then st.email_counter
  else st.phone_counter

/-- The pseudonym the consistent mode generates for a counter type at a
given counter value. -/
def genPseud (ty : Str) (j : Nat) : Str :=
  if ty = "PERSONNE".data then "PERSONNE_".data ++ natToChars j
  else if ty = "ORGANISATION".data then "ORGANISATION_".data ++ natToChars j
  else if ty = "LIEU".data then "LIEU_".data ++ natToChars j
  else if ty = "DATE".data then "DATE_".data ++ natToChars j
  else if ty = "EMAIL".data then "email".data ++ natToChars j ++ "@exemple.com".data
  else '0' :: natToChars j ++ ".XX.XX.XX.XX".data

/-- Generated pseudonyms determine the counter type and the counter value:
the six shapes start with six distinct characters, and the decimal
rendering of the counter is injective. -/
theorem genPseud_inj {ty1 ty2 : Str} (h1 : ty1 ∈ counterTypes) (h2 : ty2 ∈ counterTypes)
    {j1 j2 : Nat} (h : genPseud ty1 j1 = genPseud ty2 j2) : ty1 = ty2 ∧ j1 = j2 := by
  simp only [counterTypes, List.mem_cons, List.not_mem_nil, or_false] at h1 h2
  rcases h1 with rfl | rfl | rfl | rfl | rfl | rfl <;>
    rcases h2 with rfl | rfl | rfl | rfl | rfl | rfl <;>
    first
      | (injection h with hh ht
         exact absurd hh (by decide))
      | exact ⟨rfl, natToChars_injective (List.append_cancel_left h)⟩
      | exact ⟨rfl, natToChars_injective
          (List.append_cancel_left (List.append_cancel_right h))⟩
      | (refine ⟨rfl, ?_⟩
         have h' : ('0' : Char) :: (natToChars j1 ++ ".XX.XX.XX.XX".data) =
             ('0' : Char) :: (natToChars j2 ++ ".XX.XX.XX.XX".data) := h
         injection h' with hh ht
         exact natToChars_injective (List.append_cancel_right ht))

/-- Registry keys of the six counter types determine the type and the
normalised text (the six type names start with six distinct characters). -/
theorem mkKey_inj_six {ty1 ty2 x1 x2 : Str} (h1 : ty1 ∈ counterTypes)
    (h2 : ty2 ∈ counterTypes) (h : mkKey ty1 x1 = mkKey ty2 x2) :
    ty1 = ty2 ∧ pyLower x1 = pyLower x2 := by
  simp only [counterTypes, List.mem_cons, List.not_mem_nil, or_false] at h1 h2
  simp only [mkKey] at h
  rcases h1 with rfl | rfl | rfl | rfl | rfl | rfl <;>
    rcases h2 with rfl | rfl | rfl | rfl | rfl | rfl <;>
    first
      | (injection h with hh ht
         exact absurd hh (by decide))
      | (refine ⟨rfl, ?_⟩
         have hc := List.append_cancel_left h
         injection hc with hh2 ht2)

/-- On a registry miss in consistent mode for one of the six counter types,
the resolver returns the type's shaped pseudonym at the current counter
value, appends exactly that entry, never decreases a counter, and bumps the
resolved type's counter by one. -/
theorem resolve_six_miss (st : PsState) (x : Str) {ty : Str}
    (cfg : PseudonymizationConfig) (hty : ty ∈ counterTypes)
    (hcfg : cfg.use_placeholders = false)
    (hmiss : dictGet (mkKey ty x) st.correspondences = none) :
    (generateConsistentReplacement st x ty cfg).1 = genPseud ty (ctr ty st) ∧
    (generateConsistentReplacement st x ty cfg).2.correspondences =
      st.correspondences ++ [(mkKey ty x, genPseud ty (ctr ty st))] ∧
    (∀ u, u ∈ counterTypes →
      ctr u st ≤ ctr u (generateConsistentReplacement st x ty cfg).2) ∧
    ctr ty (generateConsistentReplacement st x ty cfg).2 = ctr ty st + 1 := by
  simp only [counterTypes, List.mem_cons, List.not_mem_nil, or_false] at hty
  rcases hty with rfl | rfl | rfl | rfl | rfl | rfl <;>
    · simp only [generateConsistentReplacement, hmiss, hcfg]
      refine ⟨rfl, rfl, ?_, rfl⟩
      intro u hu
      simp only [counterTypes, List.mem_cons, List.not_mem_nil, or_false] at hu
      rcases hu with rfl | rfl | rfl | rfl | rfl | rfl <;>
        first
          | exact Nat.le_refl _
          | exact Nat.le_succ _

/-- The registry invariant maintained by six-counter-type consistent-mode
resolves: every stored pseudonym has one of the six counter shapes at a
counter value below the current counter of its type, and the stored
pseudonyms are pairwise distinct. -/
def RegInv (st : PsState) : Prop :=
  (∀ p ∈ st.correspondences,
    ∃ u j, u ∈ counterTypes ∧ p.2 = genPseud u j ∧ j < ctr u st) ∧
  (st.correspondences.map Prod.snd).Nodup

/-- The fresh registry satisfies the invariant. -/
theorem initState_inv : RegInv initState := by
  constructor
  · intro p hp
    simp [initState] at hp
  · exact List.nodup_nil

/-- One six-type consistent-mode resolve preserves the registry invariant. -/
theorem resolve_six_inv {st : PsState} (x : Str) {ty : Str}
    {cfg : PseudonymizationConfig} (hty : ty ∈ counterTypes)
    (hcfg : cfg.use_placeholders = false) (hinv : RegInv st) :
    RegInv (generateConsistentReplacement st x ty cfg).2 := by
  cases hf : dictGet (mkKey ty x) st.correspondences with
  | some r => rw [resolve_hit hf]; exact hinv
  | none =>
    obtain ⟨hval, hcorr, hmono, hbump⟩ := resolve_six_miss st x cfg hty hcfg hf
    constructor
    · intro p hp
      rw [hcorr] at hp
      rcases List.mem_append.mp hp with hp | hp
      · obtain ⟨u, j, hu, hpe, hj⟩ := hinv.1 p hp
        exact ⟨u, j, hu, hpe, lt_of_lt_of_le hj (hmono u hu)⟩
      · simp only [List.mem_singleton] at hp
        subst hp
        exact ⟨ty, ctr ty st, hty, rfl, by rw [hbump]; omega⟩
    · rw [hcorr, List.map_append, List.nodup_append]
      refine ⟨hinv.2, by simp, ?_⟩
      intro a ha hb
      simp only [List.map_cons, List.map_nil, List.mem_singleton] at hb
      subst hb
      obtain ⟨p, hp, hpa⟩ := List.mem_map.mp ha
      obtain ⟨u, j, hu, hpe, hj⟩ := hinv.1 p hp
      have he : genPseud u j = genPseud ty (ctr ty st) := by
        rw [← hpe]; exact hpa
      obtain ⟨rfl, rfl⟩ := genPseud_inj hu hty he
      exact absurd hj (lt_irrefl _)

/-- Resolve calls restricted to the six counter types in consistent mode. -/
def SixCalls (calls : List (Str × Str × PseudonymizationConfig)) : Prop :=
  ∀ c ∈ calls, c.2.1 ∈ counterTypes ∧ c.2.2.use_placeholders = false

/-- A sequence of six-type consistent-mode resolves preserves the registry
invariant. -/
theorem applyCalls_inv (calls : List (Str × Str × PseudonymizationConfig)) :
    SixCalls calls → ∀ st : PsState, RegInv st → RegInv (applyCalls calls st) := by
  induction calls with
  | nil => intro _ st h; exact h
  | cons c rest ih =>
    intro hcalls st h
    exact ih (fun d hd => hcalls d (List.mem_cons_of_mem c hd)) _
      (resolve_six_inv c.1 (hcalls c (List.mem_cons_self c rest)).1
        (hcalls c (List.mem_cons_self c rest)).2 h)

/-- A successful dict lookup names an actual registry entry. -/
theorem dictGet_mem {k v : Str} {m : List (Str × Str)}
    (h : dictGet k m = some v) : (k, v) ∈ m := by
  simp only [dictGet, Option.map_eq_some'] at h
  obtain ⟨p, hp, hv⟩ := h
  have hpm := List.mem_of_find?_eq_some hp
  have hpk : p.1 = k := by simpa using List.find?_some hp
  obtain ⟨a, b⟩ := p
  simp only at hpk hv
  subst hpk
  subst hv
  exact hpm

/-- C4 (amended): distinctness in consistent mode holds for the six counter
types PERSONNE, ORGANISATION, LIEU, DATE, EMAIL, TELEPHONE: within one
registry lifetime of six-type consistent-mode resolves, two resolves whose
(type, lowercased text) keys differ return distinct pseudonyms.  (The
original claim's extension to unmapped pass-through types is false: the
length-preserving fallback collides on equal-length distinct originals.) -/
theorem claim4_distinct_counter_types
    (calls : List (Str × Str × PseudonymizationConfig)) (hcalls : SixCalls calls)
    (x1 ty1 x2 ty2 : Str) (cfg1 cfg2 : PseudonymizationConfig)
    (hty1 : ty1 ∈ counterTypes) (hty2 : ty2 ∈ counterTypes)
    (hcfg1 : cfg1.use_placeholders = false) (hcfg2 : cfg2.use_placeholders = false)
    (hne : ty1 ≠ ty2 ∨ pyLower x1 ≠ pyLower x2) :
    (generateConsistentReplacement
        (generateConsistentReplacement (applyCalls calls initState) x1 ty1 cfg1).2
        x2 ty2 cfg2).1 ≠
      (generateConsistentReplacement (applyCalls calls initState) x1 ty1 cfg1).1 := by
  intro heq
  have hkey : mkKey ty1 x1 ≠ mkKey ty2 x2 := by
    intro hk
    obtain ⟨hty, hx⟩ := mkKey_inj_six hty1 hty2 hk
    rcases hne with hne | hne
    · exact hne hty
    · exact hne hx
  have hinv0 : RegInv (applyCalls calls initState) :=
    applyCalls_inv calls hcalls initState initState_inv
  have hinv2 : RegInv (generateConsistentReplacement
      (generateConsistentReplacement (applyCalls calls initState) x1 ty1 cfg1).2
      x2 ty2 cfg2).2 :=
    resolve_six_inv x2 hty2 hcfg2 (resolve_six_inv x1 hty1 hcfg1 hinv0)
  have hl1 := resolve_lookup_after (applyCalls calls initState) x1 ty1 cfg1
  have hl1' := resolve_preserves_lookup
    (generateConsistentReplacement (applyCalls calls initState) x1 ty1 cfg1).2
    x2 ty2 cfg2 hl1
  have hl2 := resolve_lookup_after
    (generateConsistentReplacement (applyCalls calls initState) x1 ty1 cfg1).2
    x2 ty2 cfg2
  have hm1 := dictGet_mem hl1'
  have hm2 := dictGet_mem hl2
  have hpq := List.inj_on_of_nodup_map hinv2.2 hm2 hm1 heq
  exact hkey (congrArg Prod.fst hpq).symm

/-- C4 counterexample: in consistent mode with the default configuration
(length-preserving fallback), the two distinct same-type keys
("MISC", "abc") and ("MISC", "abd") of the unmapped type "MISC" both
receive the pseudonym "XXX", refuting the claim's extension of
distinctness to unmapped pass-through types. -/
theorem claim4_counterexample :
    pyLower "abc".data ≠ pyLower "abd".data ∧
    ({} : PseudonymizationConfig).use_placeholders = false ∧
    (generateConsistentReplacement initState "abc".data "MISC".data {}).1 =
      "XXX".data ∧
    (generateConsistentReplacement
        (generateConsistentReplacement initState "abc".data "MISC".data {}).2
        "abd".data "MISC".data {}).1 = "XXX".data :=
  ⟨by decide, rfl, by decide, by decide⟩

/-- C4 witness: two distinct person names resolved consecutively from a
fresh registry receive distinct pseudonyms. -/
theorem claim4_witness :
    (generateConsistentReplacement
        (generateConsistentReplacement initState "Jean Dupont".data
          "PERSONNE".data {}).2
        "Marie Curie".data "PERSONNE".data {}).1 ≠
      (generateConsistentReplacement initState "Jean Dupont".data
        "PERSONNE".data {}).1 :=
  claim4_distinct_counter_types [] (fun c hc => absurd hc (List.not_mem_nil c))
    "Jean Dupont".data "PERSONNE".data "Marie Curie".data "PERSONNE".data {} {}
    (by decide) (by decide) rfl rfl (Or.inr (by decide))

end Spacy
